import Mathlib

/-! pgxstruct: field metadata, column lists and row scanning.

A shallow embedding of `pgxstruct.go`.

* A Go `string` is the list of its code points (`GoString`); text is valid UTF-8, so byte-wise
  comparison of two strings is the lexicographic comparison of their code points.
* `reflect.Type` is the tree `GoType`: a struct type lists its fields in declaration order; a
  type that is neither a struct nor a pointer is `GoType.basic`.
* A Go `map` is an association list with distinct keys (`AList`); Go fixes no iteration order,
  the order of the entries is the order in which the model enumerates the map.
* `strings.ToLower` belongs to the Go standard library: the functions that call it take it as
  the argument `ToLower`; `asciiLower` is the instance used to evaluate concrete runs.
* The globals `NameMaper` and `TagName` are the record `Config`; the global `finfos` is threaded
  through `getFieldInfo` as an explicit cache. Locks are not modelled: one call runs at a time.
-/

namespace Pgxstruct

/-- A Go string, as the list of its code points. -/
abbrev GoString := List Char

/-- The kinds `reflect.Kind` that the program tells apart. -/
inductive Kind where
  | Struct
  | Ptr
  | Other
  deriving DecidableEq, Repr

/-- The fields of `reflect.StructField` that the program reads; `τ` is the type of `Type`.
`Tag` lists the key/value pairs of the struct tag in the order they are written. -/
structure StructFieldOf (τ : Type) where
  Name : GoString
  PkgPath : GoString
  Tag : List (GoString × GoString)
  Anonymous : Bool
  Typ : τ
  deriving DecidableEq

/-- A `reflect.Type`: a struct type with its fields in declaration order, a pointer type, or a
type of any other kind. -/
inductive GoType where
  | struct (name : GoString) (fields : List (StructFieldOf GoType))
  | ptr (elem : GoType)
  | basic (name : GoString)

/-- A field of a struct type. -/
abbrev StructField := StructFieldOf GoType

/-- Equality of two strings is decidable. -/
def decStr (a b : GoString) : Decidable (a = b) := inferInstance

/-- Equality of two struct tags is decidable. -/
def decTag (a b : List (GoString × GoString)) : Decidable (a = b) := inferInstance

/-- Equality of two booleans is decidable. -/
def decBool (a b : Bool) : Decidable (a = b) := inferInstance

mutual
/-- Identity of types, decided by comparing the descriptors. -/
def GoType.decEq : (a b : GoType) → Decidable (a = b)
  | .struct n fs, .struct n2 fs2 =>
    match decStr n n2, GoType.decEqFields fs fs2 with
    | isTrue h1, isTrue h2 => isTrue (by rw [h1, h2])
    | isFalse h1, _ => isFalse (fun h => h1 (by injection h))
    | _, isFalse h2 => isFalse (fun h => h2 (by injection h))
  | .ptr e, .ptr e2 =>
    match GoType.decEq e e2 with
    | isTrue h => isTrue (by rw [h])
    | isFalse h => isFalse (fun h2 => h (by injection h2))
  | .basic n, .basic n2 =>
    match decStr n n2 with
    | isTrue h => isTrue (by rw [h])
    | isFalse h => isFalse (fun h2 => h (by injection h2))
  | .struct _ _, .ptr _ => isFalse (fun h => by cases h)
  | .struct _ _, .basic _ => isFalse (fun h => by cases h)
  | .ptr _, .struct _ _ => isFalse (fun h => by cases h)
  | .ptr _, .basic _ => isFalse (fun h => by cases h)
  | .basic _, .struct _ _ => isFalse (fun h => by cases h)
  | .basic _, .ptr _ => isFalse (fun h => by cases h)
/-- Equality of field lists, field by field. -/
def GoType.decEqFields : (a b : List (StructFieldOf GoType)) → Decidable (a = b)
  | [], [] => isTrue rfl
  | [], _ :: _ => isFalse (fun h => by cases h)
  | _ :: _, [] => isFalse (fun h => by cases h)
  | ⟨n, p, t, a, ty⟩ :: fs, ⟨n2, p2, t2, a2, ty2⟩ :: gs =>
    match decStr n n2, decStr p p2,
      decTag t t2, decBool a a2,
      GoType.decEq ty ty2, GoType.decEqFields fs gs with
    | isTrue h1, isTrue h2, isTrue h3, isTrue h4, isTrue h5, isTrue h6 =>
      isTrue (by rw [h1, h2, h3, h4, h5, h6])
    | isFalse h1, _, _, _, _, _ => isFalse (fun h => h1 (by injection h with x y; injection x))
    | _, isFalse h2, _, _, _, _ => isFalse (fun h => h2 (by injection h with x y; injection x))
    | _, _, isFalse h3, _, _, _ => isFalse (fun h => h3 (by injection h with x y; injection x))
    | _, _, _, isFalse h4, _, _ => isFalse (fun h => h4 (by injection h with x y; injection x))
    | _, _, _, _, isFalse h5, _ => isFalse (fun h => h5 (by injection h with x y; injection x))
    | _, _, _, _, _, isFalse h6 => isFalse (fun h => h6 (by injection h))
end

instance : DecidableEq GoType := GoType.decEq

/-- The method `Kind` of `reflect.Type`. -/
def GoType.Kind : GoType → Kind
  | .struct _ _ => .Struct
  | .ptr _ => .Ptr
  | .basic _ => .Other

/-- The method `Elem` of `reflect.Type`. The program calls it on pointer types only (the
right operand of `||` in the destination check is evaluated when the kind is `Ptr`). -/
def GoType.Elem : GoType → GoType
  | .ptr e => e
  | t => t

/-- The method `Get` of `reflect.StructTag`: the value under `key`, the empty string when the
tag has no such key. -/
def tagGet : List (GoString × GoString) → GoString → GoString
  | [], _ => []
  | (k, v) :: rest, key => if k = key then v else tagGet rest key

/-- The type `fieldInfo` (`map[string][]int`): from column name to field index path. -/
abbrev fieldInfo := AList (fun _ : GoString => List Nat)

/-- The type of the global `finfos` (`map[reflect.Type]fieldInfo`). -/
abbrev Cache := AList (fun _ : GoType => fieldInfo)

/-- The package variables `NameMaper` and `TagName`. -/
structure Config where
  NameMaper : GoString → GoString
  TagName : GoString

/-- The run-time panics that the program can end in. -/
inductive Panic where
  | destNotPtrToStruct
  | numFieldOfNonStruct
  | fieldByIndexOfZeroValue
  deriving DecidableEq, Repr

/-- The result of a call: a value, or a panic. -/
inductive Result (α : Type) where
  | ok (a : α)
  | panic (p : Panic)
  deriving DecidableEq

/-- The statement `for k, v := range sub { finfo[k] = append([]int{i}, v...) }` of
`getFieldInfo`, over the entries of `sub` in the order they are enumerated. -/
def mergeEmbedded (i : Nat) (sub : List (Sigma (fun _ : GoString => List Nat)))
    (finfo : fieldInfo) : fieldInfo :=
  sub.foldl (fun acc e => acc.insert e.1 (i :: e.2)) finfo

mutual
/-- The function `getFieldInfo`: the cached map of `typ` when there is one, otherwise the map
built by the loop over the fields, which is stored in the cache. The cache is an argument and a
result. `NumField` panics on a type that is not a struct. -/
def getFieldInfo (cfg : Config) (finfos : Cache) : GoType → Result (fieldInfo × Cache)
  | .struct name fields =>
    match finfos.lookup (.struct name fields) with
    | some finfo => .ok (finfo, finfos)
    | none =>
      match getFieldInfoLoop cfg fields 0 ∅ finfos with
      | .ok (finfo, finfos1) => .ok (finfo, finfos1.insert (.struct name fields) finfo)
      | .panic p => .panic p
  | .ptr e =>
    match finfos.lookup (.ptr e) with
    | some finfo => .ok (finfo, finfos)
    | none => .panic .numFieldOfNonStruct
  | .basic n =>
    match finfos.lookup (.basic n) with
    | some finfo => .ok (finfo, finfos)
    | none => .panic .numFieldOfNonStruct
/-- The loop `for i := 0; i < n; i++` of `getFieldInfo` over the fields from index `i` on. -/
def getFieldInfoLoop (cfg : Config) :
    List StructField → Nat → fieldInfo → Cache → Result (fieldInfo × Cache)
  | [], _, finfo, finfos => .ok (finfo, finfos)
  | f :: rest, i, finfo, finfos =>
    let tag := tagGet f.Tag cfg.TagName
    if f.PkgPath ≠ [] ∨ tag = ['-'] then
      getFieldInfoLoop cfg rest (i + 1) finfo finfos
    else if f.Anonymous = true ∧ f.Typ.Kind = Kind.Struct then
      match getFieldInfo cfg finfos f.Typ with
      | .ok (sub, finfos1) =>
        getFieldInfoLoop cfg rest (i + 1) (mergeEmbedded i sub.entries finfo) finfos1
      | .panic p => .panic p
    else
      let tag := if tag = [] then f.Name else tag
      let tag := cfg.NameMaper tag
      getFieldInfoLoop cfg rest (i + 1) (finfo.insert tag [i]) finfos
end

/-- A lowercasing that folds the ASCII letters, to evaluate runs; `strings.ToLower` agrees with
it on ASCII text. -/
def asciiLower (s : GoString) : GoString := s.map Char.toLower

/-- The configuration the package starts with: `NameMaper = strings.ToLower`,
`TagName = "sql"`. -/
def defaultConfig (ToLower : GoString → GoString) : Config :=
  { NameMaper := ToLower, TagName := "sql".toList }

/-- The call `strings.Replace(s, old, new, 1)`: the leftmost occurrence of `old` in `s` is
replaced by `new`; `s` is returned when `old` does not occur. -/
def replaceOnce (old new : GoString) : GoString → GoString
  | [] => if old = [] then new else []
  | c :: s =>
    if old.isPrefixOf (c :: s) = true then new ++ (c :: s).drop old.length
    else c :: replaceOnce old new s

/-- The function `strings.Join`. -/
def Join : List GoString → GoString → GoString
  | [], _ => []
  | [a], _ => a
  | a :: b :: rest, sep => a ++ sep ++ Join (b :: rest) sep

/-- The function `sort.Strings`: the names in ascending order. Strings are compared
lexicographically, so the order of the result does not depend on the sorting algorithm. -/
def sortStrings (names : List GoString) : List GoString :=
  names.insertionSort (fun a b => a ≤ b)

/-- The function `cols`: the keys of the field map of the type of `s`, enumerated and then
sorted. -/
def cols (cfg : Config) (finfos : Cache) (s : GoType) : Result (List GoString × Cache) :=
  match getFieldInfo cfg finfos s with
  | .ok (fields, finfos1) => .ok (sortStrings fields.keys, finfos1)
  | .panic p => .panic p

/-- The function `Columns`; `s` is the dynamic type of the argument. -/
def Columns (cfg : Config) (finfos : Cache) (s : GoType) : Result (GoString × Cache) :=
  match cols cfg finfos s with
  | .ok (names, finfos1) => .ok (Join names ", ".toList, finfos1)
  | .panic p => .panic p

/-- The function `ColumnsAliased`; `s` is the dynamic type of the first argument. -/
def ColumnsAliased (cfg : Config) (finfos : Cache) (s : GoType) (als : GoString) :
    Result (GoString × Cache) :=
  match cols cfg finfos s with
  | .ok (names, finfos1) =>
    let aliased := names.foldl
      (fun aliased n => aliased ++ [als ++ ".".toList ++ n ++ " AS ".toList ++ als ++ "_".toList ++ n])
      []
    .ok (Join aliased ", ".toList, finfos1)
  | .panic p => .panic p

/-- The value passed as `dest`: its dynamic type, and whether it is the nil value of that
type. -/
structure Value where
  typ : GoType
  isNil : Bool

/-- The part of `pgx.FieldDescription` that the program reads. -/
structure FieldDescription where
  Name : GoString
  deriving DecidableEq

/-- A scan target: the address of the destination field at an index path
(`elem.FieldByIndex(idx).Addr().Interface()`), or a fresh `&sql.RawBytes{}`. -/
inductive Target where
  | field (path : List Nat)
  | rawBytes
  deriving DecidableEq

/-- An `error` value: `none` is `nil`. -/
abbrev GoError := Option GoString

/-- The cursor (`*pgx.Rows`, `*pgx.Row`): the column descriptions it reports and the outcome of
its scan primitive on a list of targets. -/
structure Rows where
  fields : List FieldDescription
  Scan : List Target → GoError

/-- What a scan does to its surroundings, in the order it does it. -/
inductive Event where
  | getFieldInfo (typ : GoType)
  | fieldDescriptions
  | logPrintln (cols : List FieldDescription)
  | scan (values : List Target)
  deriving DecidableEq

/-- The end of a call of `doScan` or `doScanRow`: what it returns or the panic, the cache
afterwards, and the events up to there. -/
structure Run where
  outcome : Result GoError
  finfos : Cache
  trace : List Event

/-- The name that `doScan` looks up for a column: the first occurrence of `alias + "_"` is
removed when the alias is not empty, and the result is lowercased. -/
def lookupName (ToLower : GoString → GoString) (als : GoString) (name : GoString) :
    GoString :=
  ToLower (if als.length > 0 then replaceOnce (als ++ "_".toList) [] name else name)

/-- The expression `elem.FieldByIndex(idx).Addr().Interface()`; `elem` is the zero `Value` when
the destination is a nil pointer, and `FieldByIndex` panics on it. -/
def fieldAddr (destNil : Bool) (idx : List Nat) : Result Target :=
  if destNil = true then .panic .fieldByIndexOfZeroValue else .ok (.field idx)

/-- The loop `for _, name := range cols` of `doScan`: one target is appended per column. -/
def bindValues (ToLower : GoString → GoString) (fieldInfo : fieldInfo) (destNil : Bool)
    (als : GoString) : List FieldDescription → List Target → Result (List Target)
  | [], values => .ok values
  | name :: rest, values =>
    match fieldInfo.lookup (lookupName ToLower als name.Name) with
    | none => bindValues ToLower fieldInfo destNil als rest (values ++ [Target.rawBytes])
    | some idx =>
      match fieldAddr destNil idx with
      | .ok v => bindValues ToLower fieldInfo destNil als rest (values ++ [v])
      | .panic p => .panic p

/-- The function `doScan`. -/
def doScan (ToLower : GoString → GoString) (cfg : Config) (finfos : Cache) (dest : Value)
    (rows : Rows) (als : GoString) : Run :=
  let typ := dest.typ
  if typ.Kind ≠ Kind.Ptr ∨ typ.Elem.Kind ≠ Kind.Struct then
    { outcome := .panic .destNotPtrToStruct, finfos := finfos, trace := [] }
  else
    match getFieldInfo cfg finfos typ.Elem with
    | .panic p => { outcome := .panic p, finfos := finfos, trace := [.getFieldInfo typ.Elem] }
    | .ok (fieldInfo, finfos1) =>
      let cols := rows.fields
      match bindValues ToLower fieldInfo dest.isNil als cols [] with
      | .panic p =>
        { outcome := .panic p, finfos := finfos1,
          trace := [.getFieldInfo typ.Elem, .fieldDescriptions, .logPrintln cols] }
      | .ok values =>
        { outcome := .ok (rows.Scan values), finfos := finfos1,
          trace := [.getFieldInfo typ.Elem, .fieldDescriptions, .logPrintln cols,
            .scan values] }

/-- The loop `for _, name := range cols` of `doScanRow`: the column name is lowercased and
looked up as it is. -/
def bindRowValues (ToLower : GoString → GoString) (fieldInfo : fieldInfo) (destNil : Bool) :
    List FieldDescription → List Target → Result (List Target)
  | [], values => .ok values
  | name :: rest, values =>
    match fieldInfo.lookup (ToLower name.Name) with
    | none => bindRowValues ToLower fieldInfo destNil rest (values ++ [Target.rawBytes])
    | some idx =>
      match fieldAddr destNil idx with
      | .ok v => bindRowValues ToLower fieldInfo destNil rest (values ++ [v])
      | .panic p => .panic p

/-- The function `doScanRow`. -/
def doScanRow (ToLower : GoString → GoString) (cfg : Config) (finfos : Cache) (dest : Value)
    (row : Rows) : Run :=
  let typ := dest.typ
  if typ.Kind ≠ Kind.Ptr ∨ typ.Elem.Kind ≠ Kind.Struct then
    { outcome := .panic .destNotPtrToStruct, finfos := finfos, trace := [] }
  else
    match getFieldInfo cfg finfos typ.Elem with
    | .panic p => { outcome := .panic p, finfos := finfos, trace := [.getFieldInfo typ.Elem] }
    | .ok (fieldInfo, finfos1) =>
      let cols := row.fields
      match bindRowValues ToLower fieldInfo dest.isNil cols [] with
      | .panic p =>
        { outcome := .panic p, finfos := finfos1,
          trace := [.getFieldInfo typ.Elem, .fieldDescriptions] }
      | .ok values =>
        { outcome := .ok (row.Scan values), finfos := finfos1,
          trace := [.getFieldInfo typ.Elem, .fieldDescriptions, .scan values] }

/-- The function `Scan`. -/
def Scan (ToLower : GoString → GoString) (cfg : Config) (finfos : Cache) (dest : Value)
    (rows : Rows) : Run :=
  doScan ToLower cfg finfos dest rows []

/-- The function `ScanRow`. -/
def ScanRow (ToLower : GoString → GoString) (cfg : Config) (finfos : Cache) (dest : Value)
    (row : Rows) : Run :=
  doScanRow ToLower cfg finfos dest row

/-- The function `ScanAliased`. -/
def ScanAliased (ToLower : GoString → GoString) (cfg : Config) (finfos : Cache) (dest : Value)
    (rows : Rows) (als : GoString) : Run :=
  doScan ToLower cfg finfos dest rows als

mutual
/-- The map that the body of `getFieldInfo` builds for `typ` when no type is served from the
cache: the same loop, with the map of every embedded struct type built in the same way. -/
def computeFieldInfo (cfg : Config) : GoType → fieldInfo
  | .struct _ fields => computeLoop cfg fields 0 ∅
  | .ptr _ => ∅
  | .basic _ => ∅
/-- The loop of `getFieldInfo` over the fields from index `i` on, without the cache. -/
def computeLoop (cfg : Config) : List StructField → Nat → fieldInfo → fieldInfo
  | [], _, finfo => finfo
  | f :: rest, i, finfo =>
    let tag := tagGet f.Tag cfg.TagName
    if f.PkgPath ≠ [] ∨ tag = ['-'] then
      computeLoop cfg rest (i + 1) finfo
    else if f.Anonymous = true ∧ f.Typ.Kind = Kind.Struct then
      computeLoop cfg rest (i + 1) (mergeEmbedded i (computeFieldInfo cfg f.Typ).entries finfo)
    else
      let tag := if tag = [] then f.Name else tag
      let tag := cfg.NameMaper tag
      computeLoop cfg rest (i + 1) (finfo.insert tag [i])
end

/-- The field map of `typ` under `cfg`: what `getFieldInfo` returns for it when the cache is
empty, as it is after `init`. -/
def fieldMapOf (cfg : Config) (typ : GoType) : fieldInfo :=
  match getFieldInfo cfg ∅ typ with
  | .ok (finfo, _) => finfo
  | .panic _ => ∅

/-- The cache holds, for each type it has an entry for, the field map of that type under
`cfg`: the state of a program that has run under `cfg` since `init`. -/
def Coherent (cfg : Config) (finfos : Cache) : Prop :=
  ∀ typ finfo, finfos.lookup typ = some finfo → finfo = fieldMapOf cfg typ

/-- Every entry of the cache is the cache-free map of its type. -/
def CacheAgrees (cfg : Config) (finfos : Cache) : Prop :=
  ∀ typ finfo, finfos.lookup typ = some finfo → finfo = computeFieldInfo cfg typ

/-- The field passes the test of line 43: it is exported and its tag value is not `"-"`. -/
def Eligible (cfg : Config) (f : StructField) : Prop :=
  f.PkgPath = [] ∧ tagGet f.Tag cfg.TagName ≠ ['-']

/-- The field takes the branch of line 47: it is anonymous and of struct kind. -/
def Embedded (f : StructField) : Prop :=
  f.Anonymous = true ∧ f.Typ.Kind = Kind.Struct

/-- The key under which lines 54 to 58 store a field: `NameMaper` applied to the tag value, or
to the declared name when the tag value is empty. -/
def columnName (cfg : Config) (f : StructField) : GoString :=
  cfg.NameMaper (if tagGet f.Tag cfg.TagName = [] then f.Name else tagGet f.Tag cfg.TagName)

/-- The field writes an entry for `k` when the loop of `getFieldInfo` reaches it: it is
eligible, and either it is an embedded struct whose field map has the key `k`, or it is stored
under `k` itself. -/
def Produces (cfg : Config) (f : StructField) (k : GoString) : Prop :=
  Eligible cfg f ∧
    if f.Anonymous = true ∧ f.Typ.Kind = Kind.Struct then k ∈ (fieldMapOf cfg f.Typ).keys
    else columnName cfg f = k

instance (cfg : Config) (f : StructField) : Decidable (Eligible cfg f) := by
  unfold Eligible; infer_instance

instance (f : StructField) : Decidable (Embedded f) := by
  unfold Embedded; infer_instance

instance (cfg : Config) (f : StructField) (k : GoString) : Decidable (Produces cfg f k) := by
  unfold Produces; infer_instance

/-- The target that the loop of `doScan` binds for a looked-up name when the destination is
not nil: the field at the stored path, or a discard buffer when the name is no key. -/
def targetOf (fieldInfo : fieldInfo) (key : GoString) : Target :=
  match fieldInfo.lookup key with
  | some idx => Target.field idx
  | none => Target.rawBytes

/-- A named field of a basic type with the given value of the tag `sql` (none when empty). -/
def exField (name tag : String) : StructField :=
  { Name := name.toList, PkgPath := [],
    Tag := if tag = "" then [] else [("sql".toList, tag.toList)],
    Anonymous := false, Typ := GoType.basic "int".toList }

/-- An embedded (anonymous) field of the given struct type. -/
def exEmbed (name : String) (typ : GoType) : StructField :=
  { Name := name.toList, PkgPath := [], Tag := [], Anonymous := true, Typ := typ }

/-- The type `struct { ID int; Name string }`. -/
def exUser : GoType := GoType.struct "User".toList [exField "ID" "", exField "Name" ""]

/-- A cursor over the columns `u_id`, `u_name`, `extra` whose scan primitive succeeds. -/
def exRows : Rows :=
  { fields := [⟨"u_id".toList⟩, ⟨"u_name".toList⟩, ⟨"extra".toList⟩], Scan := fun _ => none }

/-- The type `struct { Inner; A int "id"; B int "id" }`, where `Inner` is
`struct { ID int }`: an embedding followed by two fields stored under `id`. -/
def exShadow : GoType :=
  GoType.struct "Shadow".toList
    [exEmbed "Inner" (GoType.struct "Inner".toList [exField "ID" ""]),
      exField "A" "id", exField "B" "id"]

/-- The type `struct { Ref int "x_id" }`. -/
def exRef : GoType := GoType.struct "Ref".toList [exField "Ref" "x_id"]

/-- A cursor over the single column `x_u_id` whose scan primitive succeeds. -/
def exRefRows : Rows :=
  { fields := [⟨"x_u_id".toList⟩], Scan := fun _ => none }

/-- The type `struct { secret int; Skipped int "-" }`: one unexported field (its `PkgPath` is
not empty) and one field tagged `"-"`. -/
def exHidden : GoType :=
  GoType.struct "Hidden".toList
    [{ Name := "secret".toList, PkgPath := "main".toList, Tag := [], Anonymous := false,
        Typ := GoType.basic "int".toList },
      exField "Skipped" "-"]

/-- A cursor over the single column `id` whose scan primitive succeeds. -/
def exIdRows : Rows :=
  { fields := [⟨"id".toList⟩], Scan := fun _ => none }

mutual
/-- The types for which a call of `getFieldInfo` on `typ` can store a map: `typ` itself and,
for every field that passes line 43 and takes the branch of line 47, the types reached from the
type of that field in the same way. -/
def traversed (cfg : Config) : GoType → List GoType
  | .struct name fields => GoType.struct name fields :: traversedFields cfg fields
  | .ptr e => [GoType.ptr e]
  | .basic n => [GoType.basic n]
/-- The types reached from the embedded struct fields of a list of fields. -/
def traversedFields (cfg : Config) : List StructField → List GoType
  | [] => []
  | f :: rest =>
    if (f.PkgPath = [] ∧ tagGet f.Tag cfg.TagName ≠ ['-']) ∧
        (f.Anonymous = true ∧ f.Typ.Kind = Kind.Struct) then
      traversed cfg f.Typ ++ traversedFields cfg rest
    else traversedFields cfg rest
end

/-- The type `struct { Name string; Inner }` with `Inner` the struct
`struct { ID int; Name string }`: a field stored under `name` before an embedding that also
has the key `name`. -/
def exOuterFirst : GoType :=
  GoType.struct "OuterFirst".toList [exField "Name" "", exEmbed "Inner" exUser]

/-- The test `v >= 'A' && v <= 'Z'` of `ToSnakeCase` on a rune. -/
def isUpperRune (v : Char) : Bool :=
  decide ('A'.toNat ≤ v.toNat ∧ v.toNat ≤ 'Z'.toNat)

/-- The loop `for i, v := range src` of `ToSnakeCase`: `i` is the byte offset of the rune `v`,
`prevUpper` the flag of the previous rune and `buf` the buffer written so far. -/
def snakeLoop : GoString → Nat → Bool → GoString → GoString
  | [], _, _, buf => buf
  | v :: rest, i, prevUpper, buf =>
    let thisUpper := isUpperRune v
    let buf := if i > 0 ∧ thisUpper = true ∧ prevUpper = false then buf ++ ['_'] else buf
    snakeLoop rest (i + v.utf8Size) thisUpper (buf ++ [v])

/-- The function `ToSnakeCase`. -/
def ToSnakeCase (ToLower : GoString → GoString) (src : GoString) : GoString :=
  ToLower (snakeLoop src 0 false [])

/-- What the specification says `ToSnakeCase` writes for position `i` of `s`: one `_` when the
character is an uppercase letter, is not at position 0 and the character before it is not an
uppercase letter; then the character, lowercased. -/
def snakeAt (s : GoString) (i : Nat) : GoString :=
  (if isUpperRune (s.getD i ' ') = true ∧ i ≠ 0 ∧ isUpperRune (s.getD (i - 1) ' ') = false
    then ['_'] else []) ++ [(s.getD i ' ').toLower]

/-- The conversion in the words of the specification: the pieces of all positions of `s`, in
order, and nothing else. -/
def snakeSpec (s : GoString) : GoString :=
  (List.range s.length).flatMap (snakeAt s)

/-- The rune is a lowercase ASCII letter, an ASCII digit or an underscore. -/
def isSnakeRune (c : Char) : Prop :=
  ('a'.toNat ≤ c.toNat ∧ c.toNat ≤ 'z'.toNat) ∨ ('0'.toNat ≤ c.toNat ∧ c.toNat ≤ '9'.toNat) ∨
    c = '_'

instance (c : Char) : Decidable (isSnakeRune c) := by
  unfold isSnakeRune; infer_instance

/-- The rune is an ASCII letter or an ASCII digit. -/
def isAlnumRune (c : Char) : Prop :=
  ('A'.toNat ≤ c.toNat ∧ c.toNat ≤ 'Z'.toNat) ∨ ('a'.toNat ≤ c.toNat ∧ c.toNat ≤ 'z'.toNat) ∨
    ('0'.toNat ≤ c.toNat ∧ c.toNat ≤ '9'.toNat)

instance (c : Char) : Decidable (isAlnumRune c) := by
  unfold isAlnumRune; infer_instance

/-- The destination as a scan fills it: the value stored in the field at each index path,
`none` where nothing was stored. -/
abbrev Store (ν : Type) := List Nat → Option ν

/-- One store of the scan primitive: the value goes into the field a target points to; a
discard buffer keeps nothing. -/
def storeTarget {ν : Type} (s : Store ν) (tv : Target × ν) : Store ν :=
  match tv.1 with
  | Target.field p => fun q => if q = p then some tv.2 else s q
  | Target.rawBytes => s

/-- The scan primitive on a row: value `i` of the row is stored into target `i`, for
`i = 0, 1, ...` in this order. -/
def storeRow {ν : Type} (values : List Target) (row : List ν) (s : Store ν) : Store ν :=
  (values.zip row).foldl storeTarget s

/-- The destination after `Scan` on a cursor whose row is the given list of columns with their
values, when the scan primitive is `storeRow`; `none` when `Scan` does not reach the
primitive. -/
def scanInto {ν : Type} (ToLower : GoString → GoString) (cfg : Config) (finfos : Cache)
    (dest : Value) (row : List (FieldDescription × ν)) (s : Store ν) : Option (Store ν) :=
  match (Scan ToLower cfg finfos dest
      { fields := row.map Prod.fst, Scan := fun _ => none }).trace.getLast? with
  | some (Event.scan values) => some (storeRow values (row.map Prod.snd) s)
  | _ => none

/-- A configuration whose `NameMaper` returns its argument. -/
def identityConfig : Config :=
  { NameMaper := fun s => s, TagName := "sql".toList }

/-- The configuration with `NameMaper = ToSnakeCase`. -/
def snakeConfig (ToLower : GoString → GoString) : Config :=
  { NameMaper := ToSnakeCase ToLower, TagName := "sql".toList }

/-- The type `struct { UserID int; Name string }`. -/
def exAccount : GoType :=
  GoType.struct "Account".toList [exField "UserID" "", exField "Name" ""]

/-- A cursor over the single column `ID` whose scan primitive succeeds. -/
def exUpperRows : Rows :=
  { fields := [⟨"ID".toList⟩], Scan := fun _ => none }

/-- A cursor over the columns `user_id`, `name` whose scan primitive succeeds. -/
def exAccountRows : Rows :=
  { fields := [⟨"user_id".toList⟩, ⟨"name".toList⟩], Scan := fun _ => none }

/-- A cursor over the columns `u_id`, `U_id` whose scan primitive succeeds. -/
def exCaseRows : Rows :=
  { fields := [⟨"u_id".toList⟩, ⟨"U_id".toList⟩], Scan := fun _ => none }

/-- A cursor over the columns `id`, `ID` whose scan primitive succeeds. -/
def exTwiceRows : Rows :=
  { fields := [⟨"id".toList⟩, ⟨"ID".toList⟩], Scan := fun _ => none }

/-- The index path is valid for a struct type with the given fields: it is not empty, every
index is a field position of the struct reached so far, every field before the last is an
exported anonymous field whose type is a struct (not a pointer), and the last field is
exported. -/
def validPathIn : List StructField → List Nat → Bool
  | _, [] => false
  | fs, [i] =>
    match fs[i]? with
    | some f => decide (f.PkgPath = [])
    | none => false
  | fs, i :: j :: rest =>
    match fs[i]? with
    | some f =>
      decide (f.PkgPath = []) && f.Anonymous &&
        (match f.Typ with
          | GoType.struct _ gs => validPathIn gs (j :: rest)
          | _ => false)
    | none => false

/-- The index path is valid for the type, which is a struct type. -/
def ValidPath : GoType → List Nat → Bool
  | GoType.struct _ fs, p => validPathIn fs p
  | _, _ => false

/-- Every path stored in the cache is valid for the type it is stored under. -/
def PathsValid (finfos : Cache) : Prop :=
  ∀ typ finfo k p, finfos.lookup typ = some finfo → finfo.lookup k = some p →
    ValidPath typ p = true

/-- A `reflect.Value` inside the destination, as far as `FieldByIndex`, `Addr` and `Interface`
depend on it: its type, the read-only flag (set once an unexported field is passed; `Interface`
panics on it), and whether a pointer was followed to reach it (`FieldByIndex` panics when such
a pointer is nil). The value is addressable, as every field of the pointed-to struct is. -/
structure Walk where
  typ : GoType
  readOnly : Bool
  viaPointer : Bool
  deriving DecidableEq

/-- The method `Field` of `reflect.Value`; `none` is its panic (not a struct, or index out of
range). -/
def reflectField (w : Walk) (i : Nat) : Option Walk :=
  match w.typ with
  | GoType.struct _ fs =>
    match fs[i]? with
    | some f =>
      some { typ := f.Typ, readOnly := w.readOnly || decide (f.PkgPath ≠ []),
             viaPointer := w.viaPointer }
    | none => none
  | _ => none

/-- The loop of `reflect.Value.FieldByIndex`: from the second index on, a pointer to a struct
is followed before the field is selected. -/
def reflectFieldByIndexLoop : List Nat → Bool → Walk → Option Walk
  | [], _, w => some w
  | x :: rest, first, w =>
    let w1 : Walk :=
      if first = true then w
      else
        match w.typ with
        | GoType.ptr (GoType.struct n fs) =>
          { typ := GoType.struct n fs, readOnly := w.readOnly, viaPointer := true }
        | _ => w
    match reflectField w1 x with
    | some w2 => reflectFieldByIndexLoop rest false w2
    | none => none

/-- The method `FieldByIndex` of `reflect.Value` on the struct that a non-nil destination
points to; `none` is a panic. -/
def reflectFieldByIndex (typ : GoType) (index : List Nat) : Option Walk :=
  match index with
  | [x] => reflectField { typ := typ, readOnly := false, viaPointer := false } x
  | _ =>
    if typ.Kind = Kind.Struct then
      reflectFieldByIndexLoop index true { typ := typ, readOnly := false, viaPointer := false }
    else none

mutual
/-- The function `getFieldInfo` with the order of `range` over an embedded map left open:
`enum` gives, for a map, its entries in the order in which the loop of line 48 meets them.
With `enum` the list of entries as the model stores them, this is `getFieldInfo`. -/
def getFieldInfoVia (enum : fieldInfo → List (Sigma (fun _ : GoString => List Nat)))
    (cfg : Config) (finfos : Cache) : GoType → Result (fieldInfo × Cache)
  | .struct name fields =>
    match finfos.lookup (.struct name fields) with
    | some finfo => .ok (finfo, finfos)
    | none =>
      match getFieldInfoLoopVia enum cfg fields 0 ∅ finfos with
      | .ok (finfo, finfos1) => .ok (finfo, finfos1.insert (.struct name fields) finfo)
      | .panic p => .panic p
  | .ptr e =>
    match finfos.lookup (.ptr e) with
    | some finfo => .ok (finfo, finfos)
    | none => .panic .numFieldOfNonStruct
  | .basic n =>
    match finfos.lookup (.basic n) with
    | some finfo => .ok (finfo, finfos)
    | none => .panic .numFieldOfNonStruct
/-- The loop of `getFieldInfoVia`. -/
def getFieldInfoLoopVia (enum : fieldInfo → List (Sigma (fun _ : GoString => List Nat)))
    (cfg : Config) : List StructField → Nat → fieldInfo → Cache → Result (fieldInfo × Cache)
  | [], _, finfo, finfos => .ok (finfo, finfos)
  | f :: rest, i, finfo, finfos =>
    let tag := tagGet f.Tag cfg.TagName
    if f.PkgPath ≠ [] ∨ tag = ['-'] then
      getFieldInfoLoopVia enum cfg rest (i + 1) finfo finfos
    else if f.Anonymous = true ∧ f.Typ.Kind = Kind.Struct then
      match getFieldInfoVia enum cfg finfos f.Typ with
      | .ok (sub, finfos1) =>
        getFieldInfoLoopVia enum cfg rest (i + 1) (mergeEmbedded i (enum sub) finfo) finfos1
      | .panic p => .panic p
    else
      let tag := if tag = [] then f.Name else tag
      let tag := cfg.NameMaper tag
      getFieldInfoLoopVia enum cfg rest (i + 1) (finfo.insert tag [i]) finfos
end

/-- Every map in the cache has, for each key, the entry of the cache-free map of its type. -/
def CacheEquiv (cfg : Config) (finfos : Cache) : Prop :=
  ∀ typ finfo, finfos.lookup typ = some finfo →
    ∀ k, finfo.lookup k = (computeFieldInfo cfg typ).lookup k

/-- The entries of a map in reverse order. -/
def reverseEntries (m : fieldInfo) : List (Sigma (fun _ : GoString => List Nat)) :=
  m.entries.reverse

/-- The map that a call of `getFieldInfo` returns; the empty map when the call panics. -/
def resultMap (r : Result (fieldInfo × Cache)) : fieldInfo :=
  match r with
  | .ok (finfo, _) => finfo
  | .panic _ => ∅

/-- The cache after `getFieldInfo` has run for the struct `User` under the default
configuration, from the empty cache. -/
def exUserCache : Cache :=
  AList.insert exUser (fieldMapOf (defaultConfig asciiLower) exUser) ∅

/-! ## Totality of `getFieldInfo` on struct types -/

mutual
theorem getFieldInfo_struct_ok (cfg : Config) :
    ∀ (typ : GoType) (finfos : Cache), typ.Kind = Kind.Struct →
      ∃ r, getFieldInfo cfg finfos typ = .ok r
  | .struct name fields, finfos, _ => by
    rw [getFieldInfo]
    cases h : finfos.lookup (GoType.struct name fields) with
    | some finfo => exact ⟨_, rfl⟩
    | none =>
      obtain ⟨r, hr⟩ := getFieldInfoLoop_ok cfg fields 0 ∅ finfos
      simp only [hr]
      exact ⟨_, rfl⟩
  | .ptr _, _, h => by simp [GoType.Kind] at h
  | .basic _, _, h => by simp [GoType.Kind] at h
theorem getFieldInfoLoop_ok (cfg : Config) :
    ∀ (fields : List StructField) (i : Nat) (finfo : fieldInfo) (finfos : Cache),
      ∃ r, getFieldInfoLoop cfg fields i finfo finfos = .ok r
  | [], _, _, _ => ⟨_, rfl⟩
  | f :: rest, i, finfo, finfos => by
    rw [getFieldInfoLoop]
    simp only
    split_ifs with h1 h2
    · exact getFieldInfoLoop_ok cfg rest (i + 1) finfo finfos
    · obtain ⟨r, hr⟩ := getFieldInfo_struct_ok cfg f.Typ finfos h2.2
      rw [hr]
      exact getFieldInfoLoop_ok cfg rest (i + 1) _ _
    all_goals exact getFieldInfoLoop_ok cfg rest (i + 1) _ finfos
end

/-! ## The cache-free traversal and coherent caches -/

theorem cacheAgrees_empty (cfg : Config) : CacheAgrees cfg ∅ := by
  intro typ finfo h
  simp at h

theorem cacheAgrees_insert (cfg : Config) (finfos : Cache) (typ : GoType)
    (h : CacheAgrees cfg finfos) :
    CacheAgrees cfg (finfos.insert typ (computeFieldInfo cfg typ)) := by
  intro t m hm
  by_cases ht : t = typ
  · subst ht
    rw [AList.lookup_insert] at hm
    exact (Option.some.inj hm).symm
  · rw [AList.lookup_insert_ne ht] at hm
    exact h t m hm

mutual
theorem getFieldInfo_agrees (cfg : Config) :
    ∀ (typ : GoType) (finfos : Cache), typ.Kind = Kind.Struct → CacheAgrees cfg finfos →
      ∃ finfos1, getFieldInfo cfg finfos typ = .ok (computeFieldInfo cfg typ, finfos1) ∧
        CacheAgrees cfg finfos1
  | .struct name fields, finfos, _, hc => by
    rw [getFieldInfo]
    cases h : finfos.lookup (GoType.struct name fields) with
    | some finfo =>
      refine ⟨finfos, ?_, hc⟩
      rw [hc _ _ h]
    | none =>
      obtain ⟨c1, hr, hc1⟩ := getFieldInfoLoop_agrees cfg fields 0 ∅ finfos hc
      simp only [hr]
      refine ⟨c1.insert (GoType.struct name fields) (computeLoop cfg fields 0 ∅), ?_, ?_⟩
      · rw [computeFieldInfo]
      · have := cacheAgrees_insert cfg c1 (GoType.struct name fields) hc1
        rw [computeFieldInfo] at this
        exact this
  | .ptr _, _, h, _ => by simp [GoType.Kind] at h
  | .basic _, _, h, _ => by simp [GoType.Kind] at h
theorem getFieldInfoLoop_agrees (cfg : Config) :
    ∀ (fields : List StructField) (i : Nat) (finfo : fieldInfo) (finfos : Cache),
      CacheAgrees cfg finfos →
      ∃ finfos1, getFieldInfoLoop cfg fields i finfo finfos
          = .ok (computeLoop cfg fields i finfo, finfos1) ∧ CacheAgrees cfg finfos1
  | [], _, _, finfos, hc => ⟨finfos, rfl, hc⟩
  | f :: rest, i, finfo, finfos, hc => by
    rw [getFieldInfoLoop, computeLoop]
    simp only
    split_ifs with h1 h2
    · exact getFieldInfoLoop_agrees cfg rest (i + 1) finfo finfos hc
    · obtain ⟨c1, hr, hc1⟩ := getFieldInfo_agrees cfg f.Typ finfos h2.2 hc
      rw [hr]
      exact getFieldInfoLoop_agrees cfg rest (i + 1) _ c1 hc1
    all_goals exact getFieldInfoLoop_agrees cfg rest (i + 1) _ finfos hc
end

theorem fieldMapOf_eq_compute (cfg : Config) (typ : GoType) :
    fieldMapOf cfg typ = computeFieldInfo cfg typ := by
  cases typ with
  | struct name fields =>
    obtain ⟨c1, hr, _⟩ :=
      getFieldInfo_agrees cfg (GoType.struct name fields) ∅ rfl (cacheAgrees_empty cfg)
    simp [fieldMapOf, hr]
  | ptr e => simp [fieldMapOf, getFieldInfo, computeFieldInfo]
  | basic n => simp [fieldMapOf, getFieldInfo, computeFieldInfo]

theorem coherent_iff_agrees (cfg : Config) (finfos : Cache) :
    Coherent cfg finfos ↔ CacheAgrees cfg finfos := by
  simp only [Coherent, CacheAgrees, fieldMapOf_eq_compute]

theorem coherent_empty (cfg : Config) : Coherent cfg ∅ :=
  (coherent_iff_agrees cfg ∅).2 (cacheAgrees_empty cfg)

/-- From a coherent cache `getFieldInfo` returns the field map of the struct type, and the
cache stays coherent. -/
theorem getFieldInfo_coherent (cfg : Config) (typ : GoType) (finfos : Cache)
    (hk : typ.Kind = Kind.Struct) (hc : Coherent cfg finfos) :
    ∃ finfos1, getFieldInfo cfg finfos typ = .ok (fieldMapOf cfg typ, finfos1) ∧
      Coherent cfg finfos1 := by
  obtain ⟨c1, hr, hc1⟩ :=
    getFieldInfo_agrees cfg typ finfos hk ((coherent_iff_agrees cfg finfos).1 hc)
  exact ⟨c1, by rw [fieldMapOf_eq_compute, hr], (coherent_iff_agrees cfg c1).2 hc1⟩

/-! ## Last write wins -/

theorem mergeEmbedded_lookup_none (i : Nat) (k : GoString) :
    ∀ (l : List (Sigma (fun _ : GoString => List Nat))) (m : fieldInfo),
      l.dlookup k = none → (mergeEmbedded i l m).lookup k = m.lookup k := by
  intro l
  induction l with
  | nil => intro m _; rfl
  | cons e l ih =>
    obtain ⟨ek, ev⟩ := e
    intro m h
    have hne : k ≠ ek := by
      intro hk
      subst hk
      simp [List.dlookup_cons_eq] at h
    rw [List.dlookup_cons_ne _ _ hne] at h
    have := ih (m.insert ek (i :: ev)) h
    simp only [mergeEmbedded, List.foldl_cons] at this ⊢
    rw [this, AList.lookup_insert_ne hne]

theorem mergeEmbedded_lookup_some (i : Nat) (k : GoString) (p : List Nat) :
    ∀ (l : List (Sigma (fun _ : GoString => List Nat))) (m : fieldInfo),
      l.NodupKeys → l.dlookup k = some p →
      (mergeEmbedded i l m).lookup k = some (i :: p) := by
  intro l
  induction l with
  | nil => intro m _ h; simp at h
  | cons e l ih =>
    obtain ⟨ek, ev⟩ := e
    intro m hnd h
    rw [List.nodupKeys_cons] at hnd
    by_cases hk : k = ek
    · subst hk
      simp only [List.dlookup_cons_eq, Option.some.injEq] at h
      have hnone : l.dlookup k = none := List.dlookup_eq_none.2 hnd.1
      have := mergeEmbedded_lookup_none i k l (m.insert k (i :: ev)) hnone
      simp only [mergeEmbedded, List.foldl_cons] at this ⊢
      rw [this, AList.lookup_insert, h]
    · rw [List.dlookup_cons_ne _ _ hk] at h
      have := ih (m.insert ek (i :: ev)) hnd.2 h
      simp only [mergeEmbedded, List.foldl_cons] at this ⊢
      exact this

/-- The entry for `k` after the entries of an embedded map are merged. -/
theorem mergeEmbedded_lookup (i : Nat) (sub m : fieldInfo) (k : GoString) :
    (mergeEmbedded i sub.entries m).lookup k =
      match sub.lookup k with
      | some p => some (i :: p)
      | none => m.lookup k := by
  cases h : sub.lookup k with
  | none => exact mergeEmbedded_lookup_none i k sub.entries m h
  | some p => exact mergeEmbedded_lookup_some i k p sub.entries m sub.nodupKeys h

theorem computeLoop_append (cfg : Config) :
    ∀ (a b : List StructField) (i : Nat) (m : fieldInfo),
      computeLoop cfg (a ++ b) i m = computeLoop cfg b (i + a.length) (computeLoop cfg a i m) := by
  intro a
  induction a with
  | nil => intro b i m; simp [computeLoop]
  | cons f rest ih =>
    intro b i m
    have hlen : i + (f :: rest).length = i + 1 + rest.length := by
      simp only [List.length_cons]; omega
    rw [hlen, List.cons_append, computeLoop, computeLoop]
    simp only
    split_ifs <;> exact ih _ _ _

theorem computeLoop_skip (cfg : Config) (f : StructField) (rest : List StructField) (i : Nat)
    (m : fieldInfo) (h : ¬ Eligible cfg f) :
    computeLoop cfg (f :: rest) i m = computeLoop cfg rest (i + 1) m := by
  have h1 : f.PkgPath ≠ [] ∨ tagGet f.Tag cfg.TagName = ['-'] := by
    unfold Eligible at h
    by_contra hcon
    push_neg at hcon
    exact h ⟨hcon.1, hcon.2⟩
  rw [computeLoop]
  simp only [if_pos h1]

theorem computeLoop_embedded (cfg : Config) (f : StructField) (rest : List StructField)
    (i : Nat) (m : fieldInfo) (h : Eligible cfg f) (he : Embedded f) :
    computeLoop cfg (f :: rest) i m =
      computeLoop cfg rest (i + 1) (mergeEmbedded i (fieldMapOf cfg f.Typ).entries m) := by
  have h1 : ¬ (f.PkgPath ≠ [] ∨ tagGet f.Tag cfg.TagName = ['-']) := by
    unfold Eligible at h
    push_neg
    exact h
  rw [computeLoop]
  simp only [if_neg h1]
  have he1 : f.Anonymous = true ∧ f.Typ.Kind = Kind.Struct := he
  rw [if_pos he1, fieldMapOf_eq_compute]

theorem computeLoop_plain (cfg : Config) (f : StructField) (rest : List StructField)
    (i : Nat) (m : fieldInfo) (h : Eligible cfg f) (he : ¬ Embedded f) :
    computeLoop cfg (f :: rest) i m =
      computeLoop cfg rest (i + 1) (m.insert (columnName cfg f) [i]) := by
  have h1 : ¬ (f.PkgPath ≠ [] ∨ tagGet f.Tag cfg.TagName = ['-']) := by
    unfold Eligible at h
    push_neg
    exact h
  rw [computeLoop]
  simp only [if_neg h1]
  have he1 : ¬ (f.Anonymous = true ∧ f.Typ.Kind = Kind.Struct) := he
  rw [if_neg he1]
  rfl

/-- Fields that do not produce `k` leave the entry for `k` as it is. -/
theorem computeLoop_lookup_of_not_produces (cfg : Config) (k : GoString) :
    ∀ (fs : List StructField) (i : Nat) (m : fieldInfo),
      (∀ f ∈ fs, ¬ Produces cfg f k) → (computeLoop cfg fs i m).lookup k = m.lookup k := by
  intro fs
  induction fs with
  | nil => intro i m _; simp [computeLoop]
  | cons f rest ih =>
    intro i m h
    have hrest : ∀ g ∈ rest, ¬ Produces cfg g k := fun g hg => h g (List.mem_cons_of_mem _ hg)
    have hf : ¬ Produces cfg f k := h f (List.mem_cons_self _ _)
    by_cases hel : Eligible cfg f
    · by_cases hem : Embedded f
      · rw [computeLoop_embedded cfg f rest i m hel hem, ih _ _ hrest, mergeEmbedded_lookup]
        have hk : k ∉ (fieldMapOf cfg f.Typ).keys := by
          intro hk
          apply hf
          refine ⟨hel, ?_⟩
          have hem1 : f.Anonymous = true ∧ f.Typ.Kind = Kind.Struct := hem
          rw [if_pos hem1]
          exact hk
        have : (fieldMapOf cfg f.Typ).lookup k = none := AList.lookup_eq_none.2 hk
        rw [this]
      · rw [computeLoop_plain cfg f rest i m hel hem, ih _ _ hrest]
        have hk : k ≠ columnName cfg f := by
          intro hk
          apply hf
          refine ⟨hel, ?_⟩
          have hem1 : ¬ (f.Anonymous = true ∧ f.Typ.Kind = Kind.Struct) := hem
          rw [if_neg hem1]
          exact hk.symm
        rw [AList.lookup_insert_ne hk]
    · rw [computeLoop_skip cfg f rest i m hel, ih _ _ hrest]

theorem fields_split (fs : List StructField) (j : Nat) (f : StructField)
    (h : fs[j]? = some f) : fs = fs.take j ++ f :: fs.drop (j + 1) ∧ (fs.take j).length = j := by
  have hj : j < fs.length := by
    by_contra hcon
    rw [List.getElem?_eq_none (by omega)] at h
    cases h
  have hf : fs[j] = f := by
    rw [List.getElem?_eq_getElem hj] at h
    exact Option.some.inj h
  refine ⟨?_, ?_⟩
  · rw [← hf, ← List.drop_eq_getElem_cons hj, List.take_append_drop]
  · rw [List.length_take]; omega

/-- A plain eligible field at index `j` owns its key when no later field produces it. -/
theorem computeLoop_lookup_plain_last (cfg : Config) (fs : List StructField) (j : Nat)
    (f : StructField) (k : GoString) (hj : fs[j]? = some f) (hel : Eligible cfg f)
    (hem : ¬ Embedded f) (hk : columnName cfg f = k)
    (hlater : ∀ g ∈ fs.drop (j + 1), ¬ Produces cfg g k) :
    (computeLoop cfg fs 0 ∅).lookup k = some [j] := by
  obtain ⟨hsplit, hlen⟩ := fields_split fs j f hj
  rw [hsplit, computeLoop_append, hlen, computeLoop_plain cfg f _ _ _ hel hem,
    computeLoop_lookup_of_not_produces cfg k _ _ _ hlater, hk, AList.lookup_insert]
  simp

/-- An embedded eligible field at index `i` owns the keys of its map that no later field
produces, with its index put before the path. -/
theorem computeLoop_lookup_embedded_last (cfg : Config) (fs : List StructField) (i : Nat)
    (f : StructField) (k : GoString) (p : List Nat) (hi : fs[i]? = some f)
    (hel : Eligible cfg f) (hem : Embedded f) (hp : (fieldMapOf cfg f.Typ).lookup k = some p)
    (hlater : ∀ g ∈ fs.drop (i + 1), ¬ Produces cfg g k) :
    (computeLoop cfg fs 0 ∅).lookup k = some (i :: p) := by
  obtain ⟨hsplit, hlen⟩ := fields_split fs i f hi
  rw [hsplit, computeLoop_append, hlen, computeLoop_embedded cfg f _ _ _ hel hem,
    computeLoop_lookup_of_not_produces cfg k _ _ _ hlater, mergeEmbedded_lookup, hp]
  simp

/-- A key of a map has exactly one entry. -/
theorem entries_filter_key_length (m : fieldInfo) (k : GoString) (h : k ∈ m.keys) :
    (m.entries.filter (fun e => decide (e.1 = k))).length = 1 := by
  have hnd : m.entries.NodupKeys := m.nodupKeys
  have hmem : k ∈ m.entries.keys := h
  revert hnd hmem
  generalize m.entries = l
  induction l with
  | nil => intro _ h; simp at h
  | cons e l ih =>
    intro hnd hmem
    rw [List.nodupKeys_cons] at hnd
    rw [List.keys_cons, List.mem_cons] at hmem
    by_cases hk : e.1 = k
    · have hnot : ∀ x ∈ l, ¬ (x.1 = k) := by
        intro x hx hxk
        apply hnd.1
        rw [hk, ← hxk]
        exact List.mem_keys_of_mem hx
      have hnil : l.filter (fun x => decide (x.1 = k)) = [] := by
        rw [List.filter_eq_nil_iff]
        intro x hx
        simpa using hnot x hx
      simp [List.filter_cons, hk, hnil]
    · have hmem1 : k ∈ l.keys := by
        rcases hmem with h | h
        · exact absurd h.symm hk
        · exact h
      simp [List.filter_cons, hk, ih hnd.2 hmem1]

/-! ## Struct types without embedded structs -/

theorem getFieldInfoLoop_plain (cfg : Config) :
    ∀ (fs : List StructField) (i : Nat) (m : fieldInfo) (c : Cache),
      (∀ f ∈ fs, ¬ Embedded f) →
      getFieldInfoLoop cfg fs i m c = .ok (computeLoop cfg fs i m, c) := by
  intro fs
  induction fs with
  | nil => intro i m c _; rfl
  | cons f rest ih =>
    intro i m c h
    have hf : ¬ (f.Anonymous = true ∧ f.Typ.Kind = Kind.Struct) := h f (List.mem_cons_self _ _)
    have hrest : ∀ g ∈ rest, ¬ Embedded g := fun g hg => h g (List.mem_cons_of_mem _ hg)
    rw [getFieldInfoLoop, computeLoop]
    simp only [if_neg hf]
    split_ifs <;> exact ih _ _ _ hrest

theorem computeLoop_paths_plain (cfg : Config) (k : GoString) (p : List Nat) :
    ∀ (fs : List StructField) (i : Nat) (m : fieldInfo),
      (∀ f ∈ fs, ¬ Embedded f) → (computeLoop cfg fs i m).lookup k = some p →
      m.lookup k = some p ∨
        ∃ j f, fs[j]? = some f ∧ Eligible cfg f ∧ columnName cfg f = k ∧ p = [i + j] := by
  intro fs
  induction fs with
  | nil => intro i m _ h; exact Or.inl h
  | cons f rest ih =>
    intro i m h hl
    have hf : ¬ Embedded f := h f (List.mem_cons_self _ _)
    have hrest : ∀ g ∈ rest, ¬ Embedded g := fun g hg => h g (List.mem_cons_of_mem _ hg)
    have shift : ∀ m1, (computeLoop cfg rest (i + 1) m1).lookup k = some p →
        m1.lookup k = some p ∨
          ∃ j g, (f :: rest)[j]? = some g ∧ Eligible cfg g ∧ columnName cfg g = k ∧
            p = [i + j] := by
      intro m1 h1
      rcases ih (i + 1) m1 hrest h1 with h2 | ⟨j, g, hg, he, hk, hp⟩
      · exact Or.inl h2
      · refine Or.inr ⟨j + 1, g, by simpa using hg, he, hk, ?_⟩
        rw [hp]
        congr 1
        omega
    by_cases hel : Eligible cfg f
    · rw [computeLoop_plain cfg f rest i m hel hf] at hl
      rcases shift _ hl with h2 | h2
      · by_cases hk : k = columnName cfg f
        · subst hk
          rw [AList.lookup_insert] at h2
          exact Or.inr ⟨0, f, by simp, hel, rfl, by simpa using (Option.some.inj h2).symm⟩
        · rw [AList.lookup_insert_ne hk] at h2
          exact Or.inl h2
      · exact Or.inr h2
    · rw [computeLoop_skip cfg f rest i m hel] at hl
      exact shift _ hl

theorem computeLoop_mem_plain (cfg : Config) (k : GoString) :
    ∀ (fs : List StructField) (i : Nat) (m : fieldInfo),
      (∀ f ∈ fs, ¬ Embedded f) →
      (k ∈ m.keys ∨ ∃ f ∈ fs, Eligible cfg f ∧ columnName cfg f = k) →
      k ∈ (computeLoop cfg fs i m).keys := by
  intro fs
  induction fs with
  | nil =>
    intro i m _ h
    rcases h with h | ⟨f, hf, _⟩
    · exact h
    · cases hf
  | cons f rest ih =>
    intro i m h hk
    have hf : ¬ Embedded f := h f (List.mem_cons_self _ _)
    have hrest : ∀ g ∈ rest, ¬ Embedded g := fun g hg => h g (List.mem_cons_of_mem _ hg)
    by_cases hel : Eligible cfg f
    · rw [computeLoop_plain cfg f rest i m hel hf]
      apply ih _ _ hrest
      rcases hk with hk | ⟨g, hg, hge, hgk⟩
      · left
        rw [← AList.mem_keys, AList.mem_insert]
        exact Or.inr (AList.mem_keys.2 hk)
      · rcases List.mem_cons.1 hg with rfl | hg
        · left
          rw [← AList.mem_keys, AList.mem_insert]
          exact Or.inl hgk.symm
        · exact Or.inr ⟨g, hg, hge, hgk⟩
    · rw [computeLoop_skip cfg f rest i m hel]
      apply ih _ _ hrest
      rcases hk with hk | ⟨g, hg, hge, hgk⟩
      · exact Or.inl hk
      · rcases List.mem_cons.1 hg with rfl | hg
        · exact absurd hge hel
        · exact Or.inr ⟨g, hg, hge, hgk⟩

/-- The map returned for a struct type that is not cached, or whose cache is coherent, when
no field is an embedded struct. -/
theorem getFieldInfo_plain (cfg : Config) (finfos : Cache) (name : GoString)
    (fields : List StructField) (hplain : ∀ f ∈ fields, ¬ Embedded f)
    (hc : finfos.lookup (GoType.struct name fields) = none ∨ Coherent cfg finfos) :
    ∃ c1, getFieldInfo cfg finfos (GoType.struct name fields) =
      .ok (computeLoop cfg fields 0 ∅, c1) := by
  rcases hc with hc | hc
  · rw [getFieldInfo]
    simp only [hc, getFieldInfoLoop_plain cfg fields 0 ∅ finfos hplain]
    exact ⟨_, rfl⟩
  · obtain ⟨c1, h1, _⟩ := getFieldInfo_coherent cfg (GoType.struct name fields) finfos rfl hc
    rw [fieldMapOf_eq_compute, computeFieldInfo] at h1
    exact ⟨c1, h1⟩

/-! ## Keys of the field map and alias removal -/

theorem mergeEmbedded_mem (i : Nat) (sub m : fieldInfo) (k : GoString)
    (h : k ∈ (mergeEmbedded i sub.entries m).keys) : k ∈ m.keys ∨ k ∈ sub.keys := by
  rw [← AList.mem_keys, ← AList.lookup_isSome, mergeEmbedded_lookup] at h
  cases hs : sub.lookup k with
  | none =>
    rw [hs] at h
    exact Or.inl (AList.mem_keys.1 (AList.lookup_isSome.1 h))
  | some p =>
    right
    rw [← AList.mem_keys, ← AList.lookup_isSome, hs]
    rfl

mutual
theorem computeFieldInfo_keys_range (cfg : Config) :
    ∀ (typ : GoType) (k : GoString), k ∈ (computeFieldInfo cfg typ).keys →
      ∃ x, k = cfg.NameMaper x
  | .struct _ fields, k, h => by
    rw [computeFieldInfo] at h
    rcases computeLoop_keys_range cfg fields 0 ∅ k h with h1 | h1
    · simp at h1
    · exact h1
  | .ptr _, k, h => by simp [computeFieldInfo] at h
  | .basic _, k, h => by simp [computeFieldInfo] at h
theorem computeLoop_keys_range (cfg : Config) :
    ∀ (fs : List StructField) (i : Nat) (m : fieldInfo) (k : GoString),
      k ∈ (computeLoop cfg fs i m).keys → k ∈ m.keys ∨ ∃ x, k = cfg.NameMaper x
  | [], _, _, _, h => Or.inl h
  | f :: rest, i, m, k, h => by
    rw [computeLoop] at h
    simp only at h
    split_ifs at h with h1 h2 h3
    · exact computeLoop_keys_range cfg rest (i + 1) m k h
    · rcases computeLoop_keys_range cfg rest (i + 1) _ k h with h4 | h4
      · rcases mergeEmbedded_mem i _ m k h4 with h5 | h5
        · exact Or.inl h5
        · exact Or.inr (computeFieldInfo_keys_range cfg f.Typ k h5)
      · exact Or.inr h4
    · rcases computeLoop_keys_range cfg rest (i + 1) _ k h with h4 | h4
      · rw [← AList.mem_keys, AList.mem_insert] at h4
        rcases h4 with h5 | h5
        · exact Or.inr ⟨_, h5⟩
        · exact Or.inl (AList.mem_keys.1 h5)
      · exact Or.inr h4
    · rcases computeLoop_keys_range cfg rest (i + 1) _ k h with h4 | h4
      · rw [← AList.mem_keys, AList.mem_insert] at h4
        rcases h4 with h5 | h5
        · exact Or.inr ⟨_, h5⟩
        · exact Or.inl (AList.mem_keys.1 h5)
      · exact Or.inr h4
end

/-- Every key of a field map is a value of `NameMaper`. -/
theorem fieldMapOf_keys_range (cfg : Config) (typ : GoType) (k : GoString)
    (h : k ∈ (fieldMapOf cfg typ).keys) : ∃ x, k = cfg.NameMaper x := by
  rw [fieldMapOf_eq_compute] at h
  exact computeFieldInfo_keys_range cfg typ k h

theorem toNat_ofNat_lower (n : Nat) (h1 : 65 ≤ n) (h2 : n ≤ 90) :
    (Char.ofNat (n + 32)).toNat = n + 32 := by
  interval_cases n <;> rfl

theorem toLower_toLower (c : Char) : c.toLower.toLower = c.toLower := by
  by_cases h : c.toNat ≥ 65 ∧ c.toNat ≤ 90
  · have hc : c.toLower = Char.ofNat (c.toNat + 32) := by
      simp only [Char.toLower, h, and_self, if_true]
    have hn := toNat_ofNat_lower c.toNat h.1 h.2
    have hnot : ¬ ((Char.ofNat (c.toNat + 32)).toNat ≥ 65 ∧
        (Char.ofNat (c.toNat + 32)).toNat ≤ 90) := by
      rw [hn]
      omega
    rw [hc]
    simp only [Char.toLower, hnot, if_false]
  · have hc : c.toLower = c := by
      simp only [Char.toLower, h, if_false]
    rw [hc, hc]

theorem asciiLower_idempotent (s : GoString) : asciiLower (asciiLower s) = asciiLower s := by
  simp only [asciiLower, List.map_map]
  apply List.map_congr_left
  intro c _
  exact toLower_toLower c

theorem isPrefixOf_append (old n : GoString) : old.isPrefixOf (old ++ n) = true := by
  induction old with
  | nil => simp [List.isPrefixOf]
  | cons c rest ih => simp [List.isPrefixOf, ih]

/-- Removing `old` once from a string that starts with `old` leaves the rest. -/
theorem replaceOnce_append (old n : GoString) (h : old ≠ []) :
    replaceOnce old [] (old ++ n) = n := by
  cases old with
  | nil => exact absurd rfl h
  | cons c rest =>
    have hp := isPrefixOf_append (c :: rest) n
    rw [List.cons_append] at hp ⊢
    rw [replaceOnce, if_pos hp]
    simp

theorem lookupName_append (ToLower : GoString → GoString) (als n : GoString) (h : als ≠ []) :
    lookupName ToLower als (als ++ "_".toList ++ n) = ToLower n := by
  have hlen : als.length > 0 := List.length_pos.2 h
  rw [lookupName, if_pos hlen, replaceOnce_append _ _ (by simp)]

theorem mem_sortStrings (names : List GoString) (n : GoString) :
    n ∈ sortStrings names ↔ n ∈ names :=
  (List.perm_insertionSort _ names).mem_iff

/-! ## Column lists -/

theorem getFieldInfo_cached (cfg : Config) (finfos : Cache) (name : GoString)
    (fields : List StructField) (m : fieldInfo)
    (h : finfos.lookup (GoType.struct name fields) = some m) :
    getFieldInfo cfg finfos (GoType.struct name fields) = .ok (m, finfos) := by
  rw [getFieldInfo]
  simp only [h]

/-- After `getFieldInfo` the cache holds the returned map under the type. -/
theorem getFieldInfo_caches (cfg : Config) (finfos : Cache) (name : GoString)
    (fields : List StructField) (m : fieldInfo) (c1 : Cache)
    (h : getFieldInfo cfg finfos (GoType.struct name fields) = .ok (m, c1)) :
    c1.lookup (GoType.struct name fields) = some m := by
  rw [getFieldInfo] at h
  cases hl : finfos.lookup (GoType.struct name fields) with
  | some finfo =>
    simp only [hl, Result.ok.injEq, Prod.mk.injEq] at h
    rw [← h.2, hl, h.1]
  | none =>
    simp only [hl] at h
    cases hloop : getFieldInfoLoop cfg fields 0 ∅ finfos with
    | panic p => simp [hloop] at h
    | ok r =>
      obtain ⟨finfo, finfos1⟩ := r
      simp only [hloop, Result.ok.injEq, Prod.mk.injEq] at h
      rw [← h.2, AList.lookup_insert, h.1]

theorem getFieldInfoLoop_none_eligible (cfg : Config) :
    ∀ (fs : List StructField) (i : Nat) (m : fieldInfo) (c : Cache),
      (∀ f ∈ fs, ¬ Eligible cfg f) → getFieldInfoLoop cfg fs i m c = .ok (m, c) := by
  intro fs
  induction fs with
  | nil => intro i m c _; rfl
  | cons f rest ih =>
    intro i m c h
    have hf : f.PkgPath ≠ [] ∨ tagGet f.Tag cfg.TagName = ['-'] := by
      have := h f (List.mem_cons_self _ _)
      unfold Eligible at this
      by_contra hcon
      push_neg at hcon
      exact this ⟨hcon.1, hcon.2⟩
    rw [getFieldInfoLoop]
    simp only [if_pos hf]
    exact ih _ _ _ (fun g hg => h g (List.mem_cons_of_mem _ hg))

theorem computeLoop_none_eligible (cfg : Config) :
    ∀ (fs : List StructField) (i : Nat) (m : fieldInfo),
      (∀ f ∈ fs, ¬ Eligible cfg f) → computeLoop cfg fs i m = m := by
  intro fs
  induction fs with
  | nil => intro i m _; rfl
  | cons f rest ih =>
    intro i m h
    rw [computeLoop_skip cfg f rest i m (h f (List.mem_cons_self _ _))]
    exact ih _ _ (fun g hg => h g (List.mem_cons_of_mem _ hg))

theorem sortStrings_sorted (names : List GoString) (h : names.Nodup) :
    (sortStrings names).Sorted (fun a b => a < b) := by
  have hs : (sortStrings names).Sorted (fun a b => a ≤ b) :=
    List.sorted_insertionSort _ names
  have hn : (sortStrings names).Nodup :=
    (List.perm_insertionSort _ names).nodup_iff.2 h
  exact hs.lt_of_le hn

theorem foldl_append_map (f : GoString → GoString) :
    ∀ (names : List GoString) (acc : List GoString),
      names.foldl (fun aliased n => aliased ++ [f n]) acc = acc ++ names.map f := by
  intro names
  induction names with
  | nil => intro acc; simp
  | cons n rest ih => intro acc; simp [ih]

/-- A strictly ascending list whose members are `id` and `name` is the list `id`, `name`. -/
theorem sorted_id_name (names : List GoString) (hs : names.Sorted (fun a b => a < b))
    (hmem : ∀ k, k ∈ names ↔ k = "id".toList ∨ k = "name".toList) :
    names = ["id".toList, "name".toList] := by
  have hnd : names.Nodup := hs.nodup
  have hnd2 : (["id".toList, "name".toList] : List GoString).Nodup := by decide
  have hperm : names.Perm ["id".toList, "name".toList] := by
    rw [List.perm_ext_iff_of_nodup hnd hnd2]
    intro k
    rw [hmem k]
    simp
  have hs1 : names.Sorted (fun a b => a ≤ b) := hs.le_of_lt
  have hs2 : (["id".toList, "name".toList] : List GoString).Sorted (fun a b => a ≤ b) := by
    decide
  exact List.eq_of_perm_of_sorted hperm hs1 hs2

/-! ## Binding the scan targets -/

theorem bindValues_ok (ToLower : GoString → GoString) (m : fieldInfo) (destNil : Bool)
    (als : GoString) :
    ∀ (cols : List FieldDescription) (values : List Target),
      (destNil = false ∨ ∀ col ∈ cols, m.lookup (lookupName ToLower als col.Name) = none) →
      bindValues ToLower m destNil als cols values =
        .ok (values ++ cols.map (fun col => targetOf m (lookupName ToLower als col.Name))) := by
  intro cols
  induction cols with
  | nil => intro values _; simp [bindValues]
  | cons col rest ih =>
    intro values h
    have hrest : destNil = false ∨
        ∀ c ∈ rest, m.lookup (lookupName ToLower als c.Name) = none := by
      rcases h with h | h
      · exact Or.inl h
      · exact Or.inr (fun c hc => h c (List.mem_cons_of_mem _ hc))
    rw [bindValues]
    cases hl : m.lookup (lookupName ToLower als col.Name) with
    | none =>
      simp only
      rw [ih _ hrest]
      simp [targetOf, hl]
    | some idx =>
      have hnil : destNil = false := by
        rcases h with h | h
        · exact h
        · have := h col (List.mem_cons_self _ _)
          rw [hl] at this
          cases this
      subst hnil
      simp only [fieldAddr, Bool.false_eq_true, if_false]
      rw [ih _ hrest]
      simp [targetOf, hl]

theorem bindRowValues_ok (ToLower : GoString → GoString) (m : fieldInfo) (destNil : Bool) :
    ∀ (cols : List FieldDescription) (values : List Target),
      (destNil = false ∨ ∀ col ∈ cols, m.lookup (ToLower col.Name) = none) →
      bindRowValues ToLower m destNil cols values =
        .ok (values ++ cols.map (fun col => targetOf m (ToLower col.Name))) := by
  intro cols
  induction cols with
  | nil => intro values _; simp [bindRowValues]
  | cons col rest ih =>
    intro values h
    have hrest : destNil = false ∨ ∀ c ∈ rest, m.lookup (ToLower c.Name) = none := by
      rcases h with h | h
      · exact Or.inl h
      · exact Or.inr (fun c hc => h c (List.mem_cons_of_mem _ hc))
    rw [bindRowValues]
    cases hl : m.lookup (ToLower col.Name) with
    | none =>
      simp only
      rw [ih _ hrest]
      simp [targetOf, hl]
    | some idx =>
      have hnil : destNil = false := by
        rcases h with h | h
        · exact h
        · have := h col (List.mem_cons_self _ _)
          rw [hl] at this
          cases this
      subst hnil
      simp only [fieldAddr, Bool.false_eq_true, if_false]
      rw [ih _ hrest]
      simp [targetOf, hl]

theorem bindValues_panic (ToLower : GoString → GoString) (m : fieldInfo) (destNil : Bool)
    (als : GoString) (p : Panic) :
    ∀ (cols : List FieldDescription) (values : List Target),
      bindValues ToLower m destNil als cols values = .panic p →
      p = Panic.fieldByIndexOfZeroValue := by
  intro cols
  induction cols with
  | nil => intro values h; simp [bindValues] at h
  | cons col rest ih =>
    intro values h
    rw [bindValues] at h
    cases hl : m.lookup (lookupName ToLower als col.Name) with
    | none =>
      simp only [hl] at h
      exact ih _ h
    | some idx =>
      simp only [hl, fieldAddr] at h
      split_ifs at h with hn
      · simp only [Result.panic.injEq] at h
        exact h.symm
      · exact ih _ h

theorem bindRowValues_panic (ToLower : GoString → GoString) (m : fieldInfo) (destNil : Bool)
    (p : Panic) :
    ∀ (cols : List FieldDescription) (values : List Target),
      bindRowValues ToLower m destNil cols values = .panic p →
      p = Panic.fieldByIndexOfZeroValue := by
  intro cols
  induction cols with
  | nil => intro values h; simp [bindRowValues] at h
  | cons col rest ih =>
    intro values h
    rw [bindRowValues] at h
    cases hl : m.lookup (ToLower col.Name) with
    | none =>
      simp only [hl] at h
      exact ih _ h
    | some idx =>
      simp only [hl, fieldAddr] at h
      split_ifs at h with hn
      · simp only [Result.panic.injEq] at h
        exact h.symm
      · exact ih _ h

theorem lookupName_empty (ToLower : GoString → GoString) (name : GoString) :
    lookupName ToLower [] name = ToLower name := by
  simp [lookupName]

/-- What `doScan` does for a pointer to a struct whose targets can all be bound. -/
theorem doScan_run (ToLower : GoString → GoString) (cfg : Config) (finfos : Cache)
    (dest : Value) (rows : Rows) (als : GoString) (name : GoString)
    (fields : List StructField) (m : fieldInfo) (c1 : Cache)
    (hdest : dest.typ = GoType.ptr (GoType.struct name fields))
    (hm : getFieldInfo cfg finfos (GoType.struct name fields) = .ok (m, c1))
    (hnil : dest.isNil = false ∨
      ∀ col ∈ rows.fields, m.lookup (lookupName ToLower als col.Name) = none) :
    doScan ToLower cfg finfos dest rows als =
      { outcome := .ok (rows.Scan
          (rows.fields.map (fun col => targetOf m (lookupName ToLower als col.Name)))),
        finfos := c1,
        trace := [Event.getFieldInfo (GoType.struct name fields), Event.fieldDescriptions,
          Event.logPrintln rows.fields,
          Event.scan
            (rows.fields.map (fun col => targetOf m (lookupName ToLower als col.Name)))] } := by
  unfold doScan
  simp only [hdest, GoType.Kind, GoType.Elem, ne_eq, not_true_eq_false, or_self, if_false, hm]
  rw [bindValues_ok ToLower m dest.isNil als rows.fields [] hnil]
  simp

/-- What `doScanRow` does for a pointer to a struct whose targets can all be bound. -/
theorem doScanRow_run (ToLower : GoString → GoString) (cfg : Config) (finfos : Cache)
    (dest : Value) (row : Rows) (name : GoString)
    (fields : List StructField) (m : fieldInfo) (c1 : Cache)
    (hdest : dest.typ = GoType.ptr (GoType.struct name fields))
    (hm : getFieldInfo cfg finfos (GoType.struct name fields) = .ok (m, c1))
    (hnil : dest.isNil = false ∨ ∀ col ∈ row.fields, m.lookup (ToLower col.Name) = none) :
    doScanRow ToLower cfg finfos dest row =
      { outcome := .ok (row.Scan (row.fields.map (fun col => targetOf m (ToLower col.Name)))),
        finfos := c1,
        trace := [Event.getFieldInfo (GoType.struct name fields), Event.fieldDescriptions,
          Event.scan (row.fields.map (fun col => targetOf m (ToLower col.Name)))] } := by
  unfold doScanRow
  simp only [hdest, GoType.Kind, GoType.Elem, ne_eq, not_true_eq_false, or_self, if_false, hm]
  rw [bindRowValues_ok ToLower m dest.isNil row.fields [] hnil]
  simp

/-! ## Claims C1 to C3: the scan functions -/

/-- C1, as amended. For every destination whose type is a pointer to a struct and which is
not nil (or is nil while no column resolves to a key of the field map), every alias and every
list of cursor columns, `doScan` calls the scan primitive once, with one target per column:
target `i` is the address of the field at the path stored under the lookup name of column `i`
when that name is a key, and a discard buffer otherwise. -/
theorem doScan_targets_follow_columns (ToLower : GoString → GoString) (cfg : Config)
    (finfos : Cache) (dest : Value) (rows : Rows) (als : GoString) (name : GoString)
    (fields : List StructField)
    (hdest : dest.typ = GoType.ptr (GoType.struct name fields))
    (hnil : dest.isNil = false ∨
      ∀ m c1, getFieldInfo cfg finfos (GoType.struct name fields) = .ok (m, c1) →
        ∀ col ∈ rows.fields, m.lookup (lookupName ToLower als col.Name) = none) :
    ∃ m c1 values,
      getFieldInfo cfg finfos (GoType.struct name fields) = .ok (m, c1) ∧
      (doScan ToLower cfg finfos dest rows als).trace =
        [Event.getFieldInfo (GoType.struct name fields), Event.fieldDescriptions,
          Event.logPrintln rows.fields, Event.scan values] ∧
      (doScan ToLower cfg finfos dest rows als).outcome = .ok (rows.Scan values) ∧
      values.length = rows.fields.length ∧
      ∀ (i : Nat) (col : FieldDescription), rows.fields[i]? = some col →
        (∀ p, m.lookup (lookupName ToLower als col.Name) = some p →
          values[i]? = some (Target.field p)) ∧
        (m.lookup (lookupName ToLower als col.Name) = none →
          values[i]? = some Target.rawBytes) := by
  obtain ⟨⟨m, c1⟩, hm⟩ := getFieldInfo_struct_ok cfg (GoType.struct name fields) finfos rfl
  have hnil1 : dest.isNil = false ∨
      ∀ col ∈ rows.fields, m.lookup (lookupName ToLower als col.Name) = none := by
    rcases hnil with h | h
    · exact Or.inl h
    · exact Or.inr (h m c1 hm)
  have hrun := doScan_run ToLower cfg finfos dest rows als name fields m c1 hdest hm hnil1
  refine ⟨m, c1, rows.fields.map (fun col => targetOf m (lookupName ToLower als col.Name)),
    hm, ?_, ?_, ?_, ?_⟩
  · rw [hrun]
  · rw [hrun]
  · simp
  · intro i col hcol
    refine ⟨fun p hp => ?_, fun hp => ?_⟩
    · simp [List.getElem?_map, hcol, targetOf, hp]
    · simp [List.getElem?_map, hcol, targetOf, hp]

/-- C1, witness: a non-nil pointer to the struct `User` and the columns `u_id`, `u_name`,
`extra` under the alias `u`. -/
theorem doScan_targets_follow_columns_witness :
    ∃ m c1 values,
      getFieldInfo (defaultConfig asciiLower) ∅
        (GoType.struct "User".toList [exField "ID" "", exField "Name" ""]) = .ok (m, c1) ∧
      (doScan asciiLower (defaultConfig asciiLower) ∅ ⟨GoType.ptr exUser, false⟩ exRows
        "u".toList).trace =
        [Event.getFieldInfo (GoType.struct "User".toList [exField "ID" "", exField "Name" ""]),
          Event.fieldDescriptions, Event.logPrintln exRows.fields, Event.scan values] ∧
      (doScan asciiLower (defaultConfig asciiLower) ∅ ⟨GoType.ptr exUser, false⟩ exRows
        "u".toList).outcome = .ok (exRows.Scan values) ∧
      values.length = exRows.fields.length ∧
      ∀ (i : Nat) (col : FieldDescription), exRows.fields[i]? = some col →
        (∀ p, m.lookup (lookupName asciiLower "u".toList col.Name) = some p →
          values[i]? = some (Target.field p)) ∧
        (m.lookup (lookupName asciiLower "u".toList col.Name) = none →
          values[i]? = some Target.rawBytes) :=
  doScan_targets_follow_columns asciiLower (defaultConfig asciiLower) ∅
    ⟨GoType.ptr exUser, false⟩ exRows "u".toList "User".toList
    [exField "ID" "", exField "Name" ""] rfl (Or.inl rfl)

/-- C1, counterexample: the destination is a nil pointer to the struct `User` and the column
`u_id` resolves to the field `ID`. `doScan` panics in `FieldByIndex`; the scan primitive is not
called, so no list of targets is passed to it. -/
theorem doScan_nil_dest_counterexample :
    (⟨GoType.ptr exUser, true⟩ : Value).typ.Kind = Kind.Ptr ∧
    (⟨GoType.ptr exUser, true⟩ : Value).typ.Elem.Kind = Kind.Struct ∧
    (doScan asciiLower (defaultConfig asciiLower) ∅ ⟨GoType.ptr exUser, true⟩ exRows
      "u".toList).outcome = .panic Panic.fieldByIndexOfZeroValue ∧
    (doScan asciiLower (defaultConfig asciiLower) ∅ ⟨GoType.ptr exUser, true⟩ exRows
      "u".toList).trace =
      [Event.getFieldInfo exUser, Event.fieldDescriptions, Event.logPrintln exRows.fields] := by
  decide

/-- C2, as amended. For every destination whose type is a pointer to a struct and which is
not nil (or is nil while no column resolves to a key of the field map), `Scan`, `ScanAliased`
and `ScanRow` return exactly what the scan primitive returns on the bound targets: `nil` when
it succeeds, its error unchanged otherwise; a column that matches no field is bound to a
discard buffer and causes no error. -/
theorem scan_returns_primitive_result (ToLower : GoString → GoString) (cfg : Config)
    (finfos : Cache) (dest : Value) (rows : Rows) (als : GoString) (name : GoString)
    (fields : List StructField)
    (hdest : dest.typ = GoType.ptr (GoType.struct name fields))
    (hnil : dest.isNil = false ∨
      ∀ m c1, getFieldInfo cfg finfos (GoType.struct name fields) = .ok (m, c1) →
        ∀ col ∈ rows.fields, m.lookup (ToLower col.Name) = none ∧
          m.lookup (lookupName ToLower als col.Name) = none) :
    ∃ m c1,
      getFieldInfo cfg finfos (GoType.struct name fields) = .ok (m, c1) ∧
      (Scan ToLower cfg finfos dest rows).outcome =
        .ok (rows.Scan (rows.fields.map (fun col => targetOf m (ToLower col.Name)))) ∧
      (ScanAliased ToLower cfg finfos dest rows als).outcome =
        .ok (rows.Scan
          (rows.fields.map (fun col => targetOf m (lookupName ToLower als col.Name)))) ∧
      (ScanRow ToLower cfg finfos dest rows).outcome =
        .ok (rows.Scan (rows.fields.map (fun col => targetOf m (ToLower col.Name)))) ∧
      ∀ col ∈ rows.fields, m.lookup (ToLower col.Name) = none →
        targetOf m (ToLower col.Name) = Target.rawBytes := by
  obtain ⟨⟨m, c1⟩, hm⟩ := getFieldInfo_struct_ok cfg (GoType.struct name fields) finfos rfl
  have h1 : dest.isNil = false ∨ ∀ col ∈ rows.fields, m.lookup (ToLower col.Name) = none := by
    rcases hnil with h | h
    · exact Or.inl h
    · exact Or.inr (fun col hcol => (h m c1 hm col hcol).1)
  have h2 : dest.isNil = false ∨
      ∀ col ∈ rows.fields, m.lookup (lookupName ToLower als col.Name) = none := by
    rcases hnil with h | h
    · exact Or.inl h
    · exact Or.inr (fun col hcol => (h m c1 hm col hcol).2)
  have h3 : dest.isNil = false ∨
      ∀ col ∈ rows.fields, m.lookup (lookupName ToLower [] col.Name) = none := by
    simpa only [lookupName_empty] using h1
  refine ⟨m, c1, hm, ?_, ?_, ?_, ?_⟩
  · rw [Scan, doScan_run ToLower cfg finfos dest rows [] name fields m c1 hdest hm h3]
    simp only [lookupName_empty]
  · rw [ScanAliased, doScan_run ToLower cfg finfos dest rows als name fields m c1 hdest hm h2]
  · rw [ScanRow, doScanRow_run ToLower cfg finfos dest rows name fields m c1 hdest hm h1]
  · intro col _ hcol
    simp [targetOf, hcol]

/-- C2, witness: a non-nil pointer to the struct `User`, the columns `u_id`, `u_name`, `extra`
and the alias `u`. -/
theorem scan_returns_primitive_result_witness :
    ∃ m c1,
      getFieldInfo (defaultConfig asciiLower) ∅
        (GoType.struct "User".toList [exField "ID" "", exField "Name" ""]) = .ok (m, c1) ∧
      (Scan asciiLower (defaultConfig asciiLower) ∅ ⟨GoType.ptr exUser, false⟩ exRows).outcome =
        .ok (exRows.Scan (exRows.fields.map (fun col => targetOf m (asciiLower col.Name)))) ∧
      (ScanAliased asciiLower (defaultConfig asciiLower) ∅ ⟨GoType.ptr exUser, false⟩ exRows
        "u".toList).outcome =
        .ok (exRows.Scan
          (exRows.fields.map
            (fun col => targetOf m (lookupName asciiLower "u".toList col.Name)))) ∧
      (ScanRow asciiLower (defaultConfig asciiLower) ∅ ⟨GoType.ptr exUser, false⟩
        exRows).outcome =
        .ok (exRows.Scan (exRows.fields.map (fun col => targetOf m (asciiLower col.Name)))) ∧
      ∀ col ∈ exRows.fields, m.lookup (asciiLower col.Name) = none →
        targetOf m (asciiLower col.Name) = Target.rawBytes :=
  scan_returns_primitive_result asciiLower (defaultConfig asciiLower) ∅
    ⟨GoType.ptr exUser, false⟩ exRows "u".toList "User".toList
    [exField "ID" "", exField "Name" ""] rfl (Or.inl rfl)

/-- C2, counterexample: the destination is a nil pointer to the struct `User`, the cursor has
the single column `id` and its scan primitive succeeds on every list of targets. `Scan` and
`ScanRow` do not return what the primitive returns: they panic in `FieldByIndex`. -/
theorem scan_nil_dest_counterexample :
    (⟨GoType.ptr exUser, true⟩ : Value).typ.Kind = Kind.Ptr ∧
    (⟨GoType.ptr exUser, true⟩ : Value).typ.Elem.Kind = Kind.Struct ∧
    (Scan asciiLower (defaultConfig asciiLower) ∅ ⟨GoType.ptr exUser, true⟩ exIdRows).outcome =
      .panic Panic.fieldByIndexOfZeroValue ∧
    (ScanRow asciiLower (defaultConfig asciiLower) ∅ ⟨GoType.ptr exUser, true⟩
      exIdRows).outcome = .panic Panic.fieldByIndexOfZeroValue ∧
    exIdRows.Scan [Target.field [0]] = none := by
  decide

/-- C3. When the dynamic type of the destination is not a pointer to a struct, `Scan`,
`ScanAliased` and `ScanRow` end in the panic of the destination check, with the cache as it was
and no event before it: no call of `getFieldInfo`, no read of the column descriptions, no call
of the scan primitive. When the type is a pointer to a struct, none of them ends in that
panic. -/
theorem scan_panics_unless_ptr_to_struct :
    (∀ (ToLower : GoString → GoString) (cfg : Config) (finfos : Cache) (dest : Value)
        (rows : Rows) (als : GoString),
      (∀ name fields, dest.typ ≠ GoType.ptr (GoType.struct name fields)) →
        Scan ToLower cfg finfos dest rows =
          { outcome := .panic Panic.destNotPtrToStruct, finfos := finfos, trace := [] } ∧
        ScanAliased ToLower cfg finfos dest rows als =
          { outcome := .panic Panic.destNotPtrToStruct, finfos := finfos, trace := [] } ∧
        ScanRow ToLower cfg finfos dest rows =
          { outcome := .panic Panic.destNotPtrToStruct, finfos := finfos, trace := [] }) ∧
    (∀ (ToLower : GoString → GoString) (cfg : Config) (finfos : Cache) (dest : Value)
        (rows : Rows) (als : GoString) (name : GoString) (fields : List StructField),
      dest.typ = GoType.ptr (GoType.struct name fields) →
        (Scan ToLower cfg finfos dest rows).outcome ≠ .panic Panic.destNotPtrToStruct ∧
        (ScanAliased ToLower cfg finfos dest rows als).outcome
          ≠ .panic Panic.destNotPtrToStruct ∧
        (ScanRow ToLower cfg finfos dest rows).outcome ≠ .panic Panic.destNotPtrToStruct) := by
  constructor
  · intro ToLower cfg finfos dest rows als h
    have hk : dest.typ.Kind ≠ Kind.Ptr ∨ dest.typ.Elem.Kind ≠ Kind.Struct := by
      cases ht : dest.typ with
      | struct n fs => left; simp [GoType.Kind]
      | basic n => left; simp [GoType.Kind]
      | ptr e =>
        right
        cases e with
        | struct n fs => exact absurd ht (h n fs)
        | ptr e2 => simp [GoType.Kind, GoType.Elem]
        | basic n => simp [GoType.Kind, GoType.Elem]
    refine ⟨?_, ?_, ?_⟩
    · simp only [Scan, doScan, if_pos hk]
    · simp only [ScanAliased, doScan, if_pos hk]
    · simp only [ScanRow, doScanRow, if_pos hk]
  · intro ToLower cfg finfos dest rows als name fields hdest
    obtain ⟨⟨m, c1⟩, hm⟩ := getFieldInfo_struct_ok cfg (GoType.struct name fields) finfos rfl
    have hscan : ∀ a, (doScan ToLower cfg finfos dest rows a).outcome
        ≠ .panic Panic.destNotPtrToStruct := by
      intro a
      unfold doScan
      simp only [hdest, GoType.Kind, GoType.Elem, ne_eq, not_true_eq_false, or_self, if_false,
        hm]
      cases hb : bindValues ToLower m dest.isNil a rows.fields [] with
      | ok values => simp
      | panic p =>
        have := bindValues_panic ToLower m dest.isNil a p rows.fields [] hb
        subst this
        simp
    refine ⟨hscan [], hscan als, ?_⟩
    unfold ScanRow doScanRow
    simp only [hdest, GoType.Kind, GoType.Elem, ne_eq, not_true_eq_false, or_self, if_false,
      hm]
    cases hb : bindRowValues ToLower m dest.isNil rows.fields [] with
    | ok values => simp
    | panic p =>
      have := bindRowValues_panic ToLower m dest.isNil p rows.fields [] hb
      subst this
      simp

/-- C3, witness: a destination of type `int` (not a pointer), and a non-nil pointer to the
struct `User`. -/
theorem scan_panics_unless_ptr_to_struct_witness :
    (Scan asciiLower (defaultConfig asciiLower) ∅ ⟨GoType.basic "int".toList, false⟩ exRows =
        { outcome := .panic Panic.destNotPtrToStruct, finfos := ∅, trace := [] } ∧
      ScanAliased asciiLower (defaultConfig asciiLower) ∅ ⟨GoType.basic "int".toList, false⟩
          exRows "u".toList =
        { outcome := .panic Panic.destNotPtrToStruct, finfos := ∅, trace := [] } ∧
      ScanRow asciiLower (defaultConfig asciiLower) ∅ ⟨GoType.basic "int".toList, false⟩ exRows =
        { outcome := .panic Panic.destNotPtrToStruct, finfos := ∅, trace := [] }) ∧
    ((Scan asciiLower (defaultConfig asciiLower) ∅ ⟨GoType.ptr exUser, false⟩ exRows).outcome
        ≠ .panic Panic.destNotPtrToStruct ∧
      (ScanAliased asciiLower (defaultConfig asciiLower) ∅ ⟨GoType.ptr exUser, false⟩ exRows
        "u".toList).outcome ≠ .panic Panic.destNotPtrToStruct ∧
      (ScanRow asciiLower (defaultConfig asciiLower) ∅ ⟨GoType.ptr exUser, false⟩
        exRows).outcome ≠ .panic Panic.destNotPtrToStruct) :=
  ⟨scan_panics_unless_ptr_to_struct.1 asciiLower (defaultConfig asciiLower) ∅
      ⟨GoType.basic "int".toList, false⟩ exRows "u".toList (fun _ _ h => by cases h),
    scan_panics_unless_ptr_to_struct.2 asciiLower (defaultConfig asciiLower) ∅
      ⟨GoType.ptr exUser, false⟩ exRows "u".toList "User".toList
      [exField "ID" "", exField "Name" ""] rfl⟩

/-! ## Claims C4 to C6: the field map -/

/-- C4. In a struct type with two eligible (exported, not tagged `"-"`, not an embedded struct)
fields at indices `i < j` stored under the same key `k`, where no field after `j` produces `k`,
the field map that `getFieldInfo` returns has exactly one entry for `k`, and its path is `[j]`,
not `[i]`. The cache is coherent with the configuration, as it is from `init` on. -/
theorem getFieldInfo_later_field_wins (cfg : Config) (finfos : Cache) (name : GoString)
    (fields : List StructField) (i j : Nat) (fi fj : StructField) (k : GoString)
    (hc : Coherent cfg finfos) (hij : i < j)
    (hi : fields[i]? = some fi) (hj : fields[j]? = some fj)
    (hei : Eligible cfg fi ∧ ¬ Embedded fi) (hej : Eligible cfg fj ∧ ¬ Embedded fj)
    (hki : columnName cfg fi = k) (hkj : columnName cfg fj = k)
    (hlater : ∀ g ∈ fields.drop (j + 1), ¬ Produces cfg g k) :
    ∃ m c1, getFieldInfo cfg finfos (GoType.struct name fields) = .ok (m, c1) ∧
      m.lookup k = some [j] ∧ m.lookup k ≠ some [i] ∧
      (m.entries.filter (fun e => decide (e.1 = k))).length = 1 := by
  obtain ⟨c1, h1, _⟩ := getFieldInfo_coherent cfg (GoType.struct name fields) finfos rfl hc
  have hl : (fieldMapOf cfg (GoType.struct name fields)).lookup k = some [j] := by
    rw [fieldMapOf_eq_compute, computeFieldInfo]
    exact computeLoop_lookup_plain_last cfg fields j fj k hj hej.1 hej.2 hkj hlater
  refine ⟨_, c1, h1, hl, ?_, ?_⟩
  · rw [hl]
    intro h
    have : j = i := by simpa using h
    omega
  · apply entries_filter_key_length
    rw [← AList.mem_keys, ← AList.lookup_isSome, hl]
    rfl

/-- C4, witness: `struct { ID int; Other int "id" }` under the default configuration; both
fields are stored under `id`. -/
theorem getFieldInfo_later_field_wins_witness :
    ∃ m c1, getFieldInfo (defaultConfig asciiLower) ∅
        (GoType.struct "Pair".toList [exField "ID" "", exField "Other" "id"]) = .ok (m, c1) ∧
      m.lookup "id".toList = some [1] ∧ m.lookup "id".toList ≠ some [0] ∧
      (m.entries.filter (fun e => decide (e.1 = "id".toList))).length = 1 :=
  getFieldInfo_later_field_wins (defaultConfig asciiLower) ∅ "Pair".toList
    [exField "ID" "", exField "Other" "id"] 0 1 (exField "ID" "") (exField "Other" "id")
    "id".toList (coherent_empty _) (by decide) rfl rfl (by decide) (by decide) (by decide)
    (by decide) (by decide)

/-- C5, as amended. Let the field at index `i` of a struct type be an eligible embedded struct
whose own field map sends `k` to the path `p`. If no field after `i` produces `k`, the field
map of the type sends `k` to `i` followed by `p`. If an eligible field at `j > i` that is not an
embedded struct is stored under `k` and no field after `j` produces `k`, the field map of the
type sends `k` to `[j]`: the outer field shadows the embedded one. -/
theorem getFieldInfo_embedded_path_and_shadow (cfg : Config) (finfos : Cache)
    (name : GoString) (fields : List StructField) (i : Nat) (fe : StructField)
    (k : GoString) (p : List Nat)
    (hc : Coherent cfg finfos) (hi : fields[i]? = some fe)
    (hel : Eligible cfg fe) (hem : Embedded fe)
    (hp : (fieldMapOf cfg fe.Typ).lookup k = some p) :
    ∃ m c1, getFieldInfo cfg finfos (GoType.struct name fields) = .ok (m, c1) ∧
      ((∀ g ∈ fields.drop (i + 1), ¬ Produces cfg g k) → m.lookup k = some (i :: p)) ∧
      (∀ (j : Nat) (fj : StructField), i < j → fields[j]? = some fj →
        Eligible cfg fj → ¬ Embedded fj → columnName cfg fj = k →
        (∀ g ∈ fields.drop (j + 1), ¬ Produces cfg g k) → m.lookup k = some [j]) := by
  obtain ⟨c1, h1, _⟩ := getFieldInfo_coherent cfg (GoType.struct name fields) finfos rfl hc
  refine ⟨_, c1, h1, ?_, ?_⟩
  · intro hlater
    rw [fieldMapOf_eq_compute, computeFieldInfo]
    exact computeLoop_lookup_embedded_last cfg fields i fe k p hi hel hem hp hlater
  · intro j fj _ hj helj hemj hkj hlater
    rw [fieldMapOf_eq_compute, computeFieldInfo]
    exact computeLoop_lookup_plain_last cfg fields j fj k hj helj hemj hkj hlater

/-- C5, witness: `struct { Inner; Name string }` with `Inner` the struct `User`; the key `id`
comes from the embedding, at the path `[0, 0]`. -/
theorem getFieldInfo_embedded_path_and_shadow_witness :
    ∃ m c1, getFieldInfo (defaultConfig asciiLower) ∅
        (GoType.struct "Outer".toList [exEmbed "Inner" exUser, exField "Name" ""])
        = .ok (m, c1) ∧
      ((∀ g ∈ [exEmbed "Inner" exUser, exField "Name" ""].drop (0 + 1),
          ¬ Produces (defaultConfig asciiLower) g "id".toList) →
        m.lookup "id".toList = some (0 :: [0])) ∧
      (∀ (j : Nat) (fj : StructField), 0 < j →
        [exEmbed "Inner" exUser, exField "Name" ""][j]? = some fj →
        Eligible (defaultConfig asciiLower) fj → ¬ Embedded fj →
        columnName (defaultConfig asciiLower) fj = "id".toList →
        (∀ g ∈ [exEmbed "Inner" exUser, exField "Name" ""].drop (j + 1),
          ¬ Produces (defaultConfig asciiLower) g "id".toList) →
        m.lookup "id".toList = some [j]) :=
  getFieldInfo_embedded_path_and_shadow (defaultConfig asciiLower) ∅ "Outer".toList
    [exEmbed "Inner" exUser, exField "Name" ""] 0 (exEmbed "Inner" exUser) "id".toList [0]
    (coherent_empty _) rfl (by decide) (by decide) (by decide)

/-- C5, counterexample: in `struct { Inner; A int "id"; B int "id" }` the embedded struct at
index 0 has the key `id`, and the eligible field `A` at index 1, which is not embedded, is
stored under `id`; the field map sends `id` to `[2]`, not to `[1]`, because `B` comes later. -/
theorem embedded_shadow_counterexample :
    Eligible (defaultConfig asciiLower)
      (exEmbed "Inner" (GoType.struct "Inner".toList [exField "ID" ""])) ∧
    Embedded (exEmbed "Inner" (GoType.struct "Inner".toList [exField "ID" ""])) ∧
    (fieldMapOf (defaultConfig asciiLower)
      (GoType.struct "Inner".toList [exField "ID" ""])).lookup "id".toList = some [0] ∧
    Eligible (defaultConfig asciiLower) (exField "A" "id") ∧
    ¬ Embedded (exField "A" "id") ∧
    columnName (defaultConfig asciiLower) (exField "A" "id") = "id".toList ∧
    (fieldMapOf (defaultConfig asciiLower) exShadow).lookup "id".toList = some [2] ∧
    (fieldMapOf (defaultConfig asciiLower) exShadow).lookup "id".toList ≠ some [1] := by
  decide

/-- C6. For a struct type without embedded structs, the keys of the field map that
`getFieldInfo` computes (the type is not cached, or the cache is coherent) are exactly the
names `NameMaper(t)` of the fields that are exported and not tagged `"-"`, with `t` the tag
value when it is not empty and the declared name otherwise; and every key is sent to the single
index of such a field stored under that key. -/
theorem getFieldInfo_plain_struct_keys (cfg : Config) (finfos : Cache) (name : GoString)
    (fields : List StructField) (hplain : ∀ f ∈ fields, ¬ Embedded f)
    (hc : finfos.lookup (GoType.struct name fields) = none ∨ Coherent cfg finfos) :
    ∃ m c1, getFieldInfo cfg finfos (GoType.struct name fields) = .ok (m, c1) ∧
      (∀ k, k ∈ m.keys ↔
        ∃ f ∈ fields, (f.PkgPath = [] ∧ tagGet f.Tag cfg.TagName ≠ ['-']) ∧
          cfg.NameMaper
            (if tagGet f.Tag cfg.TagName = [] then f.Name else tagGet f.Tag cfg.TagName) = k) ∧
      (∀ k p, m.lookup k = some p →
        ∃ i f, fields[i]? = some f ∧ (f.PkgPath = [] ∧ tagGet f.Tag cfg.TagName ≠ ['-']) ∧
          cfg.NameMaper
            (if tagGet f.Tag cfg.TagName = [] then f.Name else tagGet f.Tag cfg.TagName) = k ∧
          p = [i]) := by
  obtain ⟨c1, h1⟩ := getFieldInfo_plain cfg finfos name fields hplain hc
  have hpaths : ∀ k p, (computeLoop cfg fields 0 ∅).lookup k = some p →
      ∃ i f, fields[i]? = some f ∧ Eligible cfg f ∧ columnName cfg f = k ∧ p = [i] := by
    intro k p hl
    rcases computeLoop_paths_plain cfg k p fields 0 ∅ hplain hl with h | ⟨i, f, hf, he, hk, hp⟩
    · simp at h
    · exact ⟨i, f, hf, he, hk, by simpa using hp⟩
  refine ⟨_, c1, h1, ?_, hpaths⟩
  intro k
  constructor
  · intro hk
    rw [← AList.mem_keys, ← AList.lookup_isSome, Option.isSome_iff_exists] at hk
    obtain ⟨p, hp⟩ := hk
    obtain ⟨i, f, hf, he, hkf, _⟩ := hpaths k p hp
    exact ⟨f, List.getElem?_mem hf, he, hkf⟩
  · intro hk
    exact computeLoop_mem_plain cfg k fields 0 ∅ hplain (Or.inr hk)

/-- C6, witness: `struct { ID int; Name string "-"; Nick string "nick_name" }` with nothing
cached. -/
theorem getFieldInfo_plain_struct_keys_witness :
    ∃ m c1, getFieldInfo (defaultConfig asciiLower) ∅
        (GoType.struct "Person".toList
          [exField "ID" "", exField "Name" "-", exField "Nick" "nick_name"]) = .ok (m, c1) ∧
      (∀ k, k ∈ m.keys ↔
        ∃ f ∈ [exField "ID" "", exField "Name" "-", exField "Nick" "nick_name"],
          (f.PkgPath = [] ∧ tagGet f.Tag (defaultConfig asciiLower).TagName ≠ ['-']) ∧
          (defaultConfig asciiLower).NameMaper
            (if tagGet f.Tag (defaultConfig asciiLower).TagName = [] then f.Name
              else tagGet f.Tag (defaultConfig asciiLower).TagName) = k) ∧
      (∀ k p, m.lookup k = some p →
        ∃ i f, [exField "ID" "", exField "Name" "-", exField "Nick" "nick_name"][i]? = some f ∧
          (f.PkgPath = [] ∧ tagGet f.Tag (defaultConfig asciiLower).TagName ≠ ['-']) ∧
          (defaultConfig asciiLower).NameMaper
            (if tagGet f.Tag (defaultConfig asciiLower).TagName = [] then f.Name
              else tagGet f.Tag (defaultConfig asciiLower).TagName) = k ∧
          p = [i]) :=
  getFieldInfo_plain_struct_keys (defaultConfig asciiLower) ∅ "Person".toList
    [exField "ID" "", exField "Name" "-", exField "Nick" "nick_name"] (by decide)
    (Or.inl (by decide))

/-! ## Claims C7 and C8: aliases -/

/-- C7, the code at the failing input: with the alias `u` the column `x_u_id` does not start
with `u_`, and `strings.Replace(name, "u_", "", 1)` still removes the occurrence in the middle,
so the name looked up is `x_id`; `ScanAliased` binds the column `x_u_id` to the field stored
under `x_id` instead of a discard buffer. -/
theorem scanAliased_removes_inner_occurrence :
    ("u".toList ++ "_".toList).isPrefixOf "x_u_id".toList = false ∧
    replaceOnce ("u".toList ++ "_".toList) [] "x_u_id".toList = "x_id".toList ∧
    lookupName asciiLower "u".toList "x_u_id".toList = "x_id".toList ∧
    (ScanAliased asciiLower (defaultConfig asciiLower) ∅ ⟨GoType.ptr exRef, false⟩ exRefRows
      "u".toList).trace =
      [Event.getFieldInfo exRef, Event.fieldDescriptions, Event.logPrintln exRefRows.fields,
        Event.scan [Target.field [0]]] := by
  decide

/-- C8. Under the default configuration (`NameMaper = strings.ToLower`, a lowercasing that
leaves lowercased text as it is) and a coherent cache: for every struct type, every non-empty
alias `a` and every name `n` that `cols` lists for the type, `ScanAliased` with the alias `a`
binds a column named `a + "_" + n` to the field whose path the field map stores under `n`, and
binds a column whose looked-up name is no key to a discard buffer. -/
theorem scanAliased_resolves_aliased_columns (ToLower : GoString → GoString)
    (hlow : ∀ s, ToLower (ToLower s) = ToLower s)
    (finfos finfos2 : Cache) (name : GoString) (fields : List StructField)
    (als n : GoString) (names : List GoString) (c1 : Cache) (dest : Value) (rows : Rows)
    (hc : Coherent (defaultConfig ToLower) finfos)
    (hc2 : Coherent (defaultConfig ToLower) finfos2)
    (hals : als ≠ [])
    (hcols : cols (defaultConfig ToLower) finfos (GoType.struct name fields) = .ok (names, c1))
    (hn : n ∈ names)
    (hdest : dest.typ = GoType.ptr (GoType.struct name fields))
    (hnil : dest.isNil = false) :
    ∃ m c2 values p,
      getFieldInfo (defaultConfig ToLower) finfos2 (GoType.struct name fields) = .ok (m, c2) ∧
      m.lookup n = some p ∧
      (ScanAliased ToLower (defaultConfig ToLower) finfos2 dest rows als).trace =
        [Event.getFieldInfo (GoType.struct name fields), Event.fieldDescriptions,
          Event.logPrintln rows.fields, Event.scan values] ∧
      values.length = rows.fields.length ∧
      (∀ (i : Nat) (col : FieldDescription), rows.fields[i]? = some col →
        col.Name = als ++ "_".toList ++ n → values[i]? = some (Target.field p)) ∧
      (∀ (i : Nat) (col : FieldDescription), rows.fields[i]? = some col →
        m.lookup (lookupName ToLower als col.Name) = none →
        values[i]? = some Target.rawBytes) := by
  obtain ⟨d1, hd1, _⟩ :=
    getFieldInfo_coherent (defaultConfig ToLower) (GoType.struct name fields) finfos rfl hc
  obtain ⟨c2, hm, _⟩ :=
    getFieldInfo_coherent (defaultConfig ToLower) (GoType.struct name fields) finfos2 rfl hc2
  have hnames : names = sortStrings (fieldMapOf (defaultConfig ToLower)
      (GoType.struct name fields)).keys := by
    rw [cols, hd1] at hcols
    simp only [Result.ok.injEq, Prod.mk.injEq] at hcols
    exact hcols.1.symm
  have hkey : n ∈ (fieldMapOf (defaultConfig ToLower) (GoType.struct name fields)).keys := by
    rw [hnames, mem_sortStrings] at hn
    exact hn
  obtain ⟨x, hx⟩ := fieldMapOf_keys_range _ _ _ hkey
  have hfix : ToLower n = n := by
    rw [hx]
    exact hlow x
  have hsome := AList.lookup_isSome.2 (AList.mem_keys.2 hkey)
  rw [Option.isSome_iff_exists] at hsome
  obtain ⟨p, hp⟩ := hsome
  have hrun := doScan_run ToLower (defaultConfig ToLower) finfos2 dest rows als name fields _ c2
    hdest hm (Or.inl hnil)
  refine ⟨_, c2,
    rows.fields.map (fun col => targetOf (fieldMapOf (defaultConfig ToLower)
      (GoType.struct name fields)) (lookupName ToLower als col.Name)),
    p, hm, hp, ?_, ?_, ?_, ?_⟩
  · rw [ScanAliased, hrun]
  · simp
  · intro i col hcol hname
    have hlk : lookupName ToLower als col.Name = n := by
      rw [hname, lookupName_append ToLower als n hals, hfix]
    rw [List.getElem?_map, hcol, Option.map_some', hlk, targetOf, hp]
  · intro i col hcol hnone
    simp [List.getElem?_map, hcol, targetOf, hnone]

/-- C8, witness: the struct `User`, the alias `u` and the name `id`; the columns `u_id`,
`u_name`, `extra` give the targets `ID`, `Name` and a discard buffer. -/
theorem scanAliased_resolves_aliased_columns_witness :
    (∃ m c2 values p,
      getFieldInfo (defaultConfig asciiLower) ∅
        (GoType.struct "User".toList [exField "ID" "", exField "Name" ""]) = .ok (m, c2) ∧
      m.lookup "id".toList = some p ∧
      (ScanAliased asciiLower (defaultConfig asciiLower) ∅ ⟨GoType.ptr exUser, false⟩ exRows
        "u".toList).trace =
        [Event.getFieldInfo (GoType.struct "User".toList [exField "ID" "", exField "Name" ""]),
          Event.fieldDescriptions, Event.logPrintln exRows.fields, Event.scan values] ∧
      values.length = exRows.fields.length ∧
      (∀ (i : Nat) (col : FieldDescription), exRows.fields[i]? = some col →
        col.Name = "u".toList ++ "_".toList ++ "id".toList →
        values[i]? = some (Target.field p)) ∧
      (∀ (i : Nat) (col : FieldDescription), exRows.fields[i]? = some col →
        m.lookup (lookupName asciiLower "u".toList col.Name) = none →
        values[i]? = some Target.rawBytes)) ∧
    (ScanAliased asciiLower (defaultConfig asciiLower) ∅ ⟨GoType.ptr exUser, false⟩ exRows
      "u".toList).trace =
      [Event.getFieldInfo exUser, Event.fieldDescriptions, Event.logPrintln exRows.fields,
        Event.scan [Target.field [0], Target.field [1], Target.rawBytes]] :=
  ⟨scanAliased_resolves_aliased_columns asciiLower asciiLower_idempotent ∅ ∅ "User".toList
      [exField "ID" "", exField "Name" ""] "u".toList "id".toList
      ["id".toList, "name".toList]
      (AList.insert exUser (fieldMapOf (defaultConfig asciiLower) exUser) ∅)
      ⟨GoType.ptr exUser, false⟩ exRows (coherent_empty _) (coherent_empty _) (by decide)
      rfl (by decide) rfl rfl,
    by decide⟩

/-! ## Claims C9 and C10: column lists -/

/-- C9. For a value of a struct type, `Columns` returns the names of a list joined by `", "`;
the list is strictly ascending, so without repetition, and its members are exactly the keys of
the field map that `getFieldInfo` returns for the type. A later call for the same type, under
any configuration, returns the same string. A map without keys gives the empty string, and so
does a type without eligible fields (when it is not cached or the cache is coherent). -/
theorem columns_sorted_keys (cfg : Config) (finfos : Cache) (name : GoString)
    (fields : List StructField) :
    ∃ m c1 names,
      getFieldInfo cfg finfos (GoType.struct name fields) = .ok (m, c1) ∧
      Columns cfg finfos (GoType.struct name fields) = .ok (Join names ", ".toList, c1) ∧
      names.Sorted (fun a b => a < b) ∧
      (∀ k, k ∈ names ↔ k ∈ m.keys) ∧
      (∀ cfg2, Columns cfg2 c1 (GoType.struct name fields)
        = .ok (Join names ", ".toList, c1)) ∧
      (m.keys = [] → Columns cfg finfos (GoType.struct name fields) = .ok ([], c1)) ∧
      ((∀ f ∈ fields, ¬ Eligible cfg f) →
        (finfos.lookup (GoType.struct name fields) = none ∨ Coherent cfg finfos) →
        Columns cfg finfos (GoType.struct name fields) = .ok ([], c1)) := by
  obtain ⟨⟨m, c1⟩, hm⟩ := getFieldInfo_struct_ok cfg (GoType.struct name fields) finfos rfl
  have hcol : Columns cfg finfos (GoType.struct name fields)
      = .ok (Join (sortStrings m.keys) ", ".toList, c1) := by
    simp only [Columns, cols, hm]
  have hempty : m.keys = [] →
      Columns cfg finfos (GoType.struct name fields) = .ok ([], c1) := by
    intro h
    rw [hcol, h]
    rfl
  refine ⟨m, c1, sortStrings m.keys, hm, hcol, sortStrings_sorted _ (AList.keys_nodup m),
    fun k => mem_sortStrings _ k, ?_, hempty, ?_⟩
  · intro cfg2
    have h2 := getFieldInfo_cached cfg2 c1 name fields m
      (getFieldInfo_caches cfg finfos name fields m c1 hm)
    simp only [Columns, cols, h2]
  · intro hnone hc
    apply hempty
    rcases hc with hc | hc
    · rw [getFieldInfo] at hm
      simp only [hc, getFieldInfoLoop_none_eligible cfg fields 0 ∅ finfos hnone,
        Result.ok.injEq, Prod.mk.injEq] at hm
      rw [← hm.1]
      rfl
    · obtain ⟨c2, h2, _⟩ :=
        getFieldInfo_coherent cfg (GoType.struct name fields) finfos rfl hc
      rw [hm, fieldMapOf_eq_compute, computeFieldInfo,
        computeLoop_none_eligible cfg fields 0 ∅ hnone] at h2
      simp only [Result.ok.injEq, Prod.mk.injEq] at h2
      rw [h2.1]
      rfl

/-- C9, witness: the struct `User` gives `id, name`, and a struct whose fields are unexported
or tagged `"-"` gives the empty string. -/
theorem columns_sorted_keys_witness :
    (∃ c1, Columns (defaultConfig asciiLower) ∅ exUser = .ok ("id, name".toList, c1)) ∧
    (∃ m c1 names,
      getFieldInfo (defaultConfig asciiLower) ∅ exHidden = .ok (m, c1) ∧
      Columns (defaultConfig asciiLower) ∅ exHidden = .ok (Join names ", ".toList, c1) ∧
      Columns (defaultConfig asciiLower) ∅ exHidden = .ok ([], c1)) := by
  refine ⟨⟨_, rfl⟩, ?_⟩
  obtain ⟨m, c1, names, h1, h2, _, _, _, _, h3⟩ :=
    columns_sorted_keys (defaultConfig asciiLower) ∅ "Hidden".toList
      [{ Name := "secret".toList, PkgPath := "main".toList, Tag := [], Anonymous := false,
          Typ := GoType.basic "int".toList },
        exField "Skipped" "-"]
  exact ⟨m, c1, names, h1, h2, h3 (by decide) (Or.inl (by decide))⟩

/-- C10. For a value of a struct type and an alias `a`, `ColumnsAliased` returns, joined by
`", "`, the names of the sorted list that `Columns` joins, in the same order, each name `n`
rendered as `a + "." + n + " AS " + a + "_" + n`. When the keys of the field map are `id` and
`name` and the alias is `u`, the result is `u.id AS u_id, u.name AS u_name`. -/
theorem columnsAliased_renders_sorted_names (cfg : Config) (finfos : Cache) (name : GoString)
    (fields : List StructField) (als : GoString) :
    ∃ m c1 names,
      getFieldInfo cfg finfos (GoType.struct name fields) = .ok (m, c1) ∧
      cols cfg finfos (GoType.struct name fields) = .ok (names, c1) ∧
      Columns cfg finfos (GoType.struct name fields) = .ok (Join names ", ".toList, c1) ∧
      ColumnsAliased cfg finfos (GoType.struct name fields) als =
        .ok (Join
          (names.map (fun n =>
            als ++ ".".toList ++ n ++ " AS ".toList ++ als ++ "_".toList ++ n))
          ", ".toList, c1) ∧
      ((∀ k, k ∈ m.keys ↔ k = "id".toList ∨ k = "name".toList) →
        ColumnsAliased cfg finfos (GoType.struct name fields) "u".toList =
          .ok ("u.id AS u_id, u.name AS u_name".toList, c1)) := by
  obtain ⟨⟨m, c1⟩, hm⟩ := getFieldInfo_struct_ok cfg (GoType.struct name fields) finfos rfl
  have hcols : cols cfg finfos (GoType.struct name fields) = .ok (sortStrings m.keys, c1) := by
    simp only [cols, hm]
  have hal : ∀ a : GoString, ColumnsAliased cfg finfos (GoType.struct name fields) a =
      .ok (Join
        ((sortStrings m.keys).map (fun n =>
          a ++ ".".toList ++ n ++ " AS ".toList ++ a ++ "_".toList ++ n))
        ", ".toList, c1) := by
    intro a
    simp only [ColumnsAliased, hcols]
    rw [foldl_append_map (fun n =>
      a ++ ".".toList ++ n ++ " AS ".toList ++ a ++ "_".toList ++ n)]
    simp
  refine ⟨m, c1, sortStrings m.keys, hm, hcols, ?_, hal als, ?_⟩
  · simp only [Columns, hcols]
  · intro hkeys
    have hnames : sortStrings m.keys = ["id".toList, "name".toList] :=
      sorted_id_name _ (sortStrings_sorted _ (AList.keys_nodup m))
        (fun k => (mem_sortStrings _ k).trans (hkeys k))
    rw [hal, hnames]
    rfl

/-- C10, witness: the struct `User` and the alias `u`. -/
theorem columnsAliased_renders_sorted_names_witness :
    ∃ c1, ColumnsAliased (defaultConfig asciiLower) ∅ exUser "u".toList =
      .ok ("u.id AS u_id, u.name AS u_name".toList, c1) := by
  obtain ⟨m, c1, names, h1, _, _, _, h5⟩ :=
    columnsAliased_renders_sorted_names (defaultConfig asciiLower) ∅ "User".toList
      [exField "ID" "", exField "Name" ""] "u".toList
  refine ⟨c1, h5 ?_⟩
  have hm : getFieldInfo (defaultConfig asciiLower) ∅
      (GoType.struct "User".toList [exField "ID" "", exField "Name" ""]) =
      .ok (fieldMapOf (defaultConfig asciiLower) exUser,
        AList.insert exUser (fieldMapOf (defaultConfig asciiLower) exUser) ∅) := rfl
  rw [hm] at h1
  simp only [Result.ok.injEq, Prod.mk.injEq] at h1
  rw [← h1.1]
  intro k
  have hk : (fieldMapOf (defaultConfig asciiLower) exUser).keys
      = ["name".toList, "id".toList] := by decide
  rw [hk]
  simp [or_comm]

/-! ## Claims C14 and C19: the cache as a frame, and embeddings that come later -/

mutual
theorem getFieldInfo_frame (cfg : Config) :
    ∀ (typ : GoType) (c : Cache) (m : fieldInfo) (c1 : Cache),
      getFieldInfo cfg c typ = .ok (m, c1) →
      (∀ t v, c.lookup t = some v → c1.lookup t = some v) ∧
        (∀ t, t ∈ c1.keys → t ∈ c.keys ∨ t ∈ traversed cfg typ)
  | .struct name fields, c, m, c1, h => by
    rw [getFieldInfo] at h
    cases hl : c.lookup (GoType.struct name fields) with
    | some finfo =>
      simp only [hl, Result.ok.injEq, Prod.mk.injEq] at h
      rw [← h.2]
      exact ⟨fun t v hv => hv, fun t ht => Or.inl ht⟩
    | none =>
      simp only [hl] at h
      cases hloop : getFieldInfoLoop cfg fields 0 ∅ c with
      | panic p => simp [hloop] at h
      | ok r =>
        obtain ⟨finfo, c2⟩ := r
        simp only [hloop, Result.ok.injEq, Prod.mk.injEq] at h
        obtain ⟨hmono, hnew⟩ := getFieldInfoLoop_frame cfg fields 0 ∅ c finfo c2 hloop
        rw [← h.2]
        constructor
        · intro t v hv
          have hne : t ≠ GoType.struct name fields := by
            intro heq
            rw [heq, hl] at hv
            cases hv
          rw [AList.lookup_insert_ne hne]
          exact hmono t v hv
        · intro t ht
          rw [← AList.mem_keys, AList.mem_insert] at ht
          rcases ht with ht | ht
          · right
            rw [ht, traversed]
            exact List.mem_cons_self _ _
          · rcases hnew t (AList.mem_keys.1 ht) with h1 | h1
            · exact Or.inl h1
            · right
              rw [traversed]
              exact List.mem_cons_of_mem _ h1
  | .ptr e, c, m, c1, h => by
    rw [getFieldInfo] at h
    cases hl : c.lookup (GoType.ptr e) with
    | some finfo =>
      simp only [hl, Result.ok.injEq, Prod.mk.injEq] at h
      rw [← h.2]
      exact ⟨fun t v hv => hv, fun t ht => Or.inl ht⟩
    | none => simp [hl] at h
  | .basic n, c, m, c1, h => by
    rw [getFieldInfo] at h
    cases hl : c.lookup (GoType.basic n) with
    | some finfo =>
      simp only [hl, Result.ok.injEq, Prod.mk.injEq] at h
      rw [← h.2]
      exact ⟨fun t v hv => hv, fun t ht => Or.inl ht⟩
    | none => simp [hl] at h
theorem getFieldInfoLoop_frame (cfg : Config) :
    ∀ (fs : List StructField) (i : Nat) (acc : fieldInfo) (c : Cache) (m : fieldInfo)
      (c1 : Cache), getFieldInfoLoop cfg fs i acc c = .ok (m, c1) →
      (∀ t v, c.lookup t = some v → c1.lookup t = some v) ∧
        (∀ t, t ∈ c1.keys → t ∈ c.keys ∨ t ∈ traversedFields cfg fs)
  | [], _, _, c, m, c1, h => by
    simp only [getFieldInfoLoop, Result.ok.injEq, Prod.mk.injEq] at h
    rw [← h.2]
    exact ⟨fun t v hv => hv, fun t ht => Or.inl ht⟩
  | f :: rest, i, acc, c, m, c1, h => by
    rw [getFieldInfoLoop] at h
    simp only at h
    rw [traversedFields]
    by_cases h1 : f.PkgPath ≠ [] ∨ tagGet f.Tag cfg.TagName = ['-']
    · have hnot : ¬ ((f.PkgPath = [] ∧ tagGet f.Tag cfg.TagName ≠ ['-']) ∧
          (f.Anonymous = true ∧ f.Typ.Kind = Kind.Struct)) := by
        intro hcon
        rcases h1 with h1 | h1
        · exact h1 hcon.1.1
        · exact hcon.1.2 h1
      rw [if_pos h1] at h
      rw [if_neg hnot]
      exact getFieldInfoLoop_frame cfg rest (i + 1) acc c m c1 h
    · rw [if_neg h1] at h
      have hel : f.PkgPath = [] ∧ tagGet f.Tag cfg.TagName ≠ ['-'] := by
        push_neg at h1
        exact h1
      by_cases h2 : f.Anonymous = true ∧ f.Typ.Kind = Kind.Struct
      · rw [if_pos h2] at h
        rw [if_pos ⟨hel, h2⟩]
        cases hsub : getFieldInfo cfg c f.Typ with
        | panic p => simp [hsub] at h
        | ok r =>
          obtain ⟨sub, c2⟩ := r
          simp only [hsub] at h
          obtain ⟨hm1, hn1⟩ := getFieldInfo_frame cfg f.Typ c sub c2 hsub
          obtain ⟨hm2, hn2⟩ := getFieldInfoLoop_frame cfg rest (i + 1) _ c2 m c1 h
          constructor
          · intro t v hv
            exact hm2 t v (hm1 t v hv)
          · intro t ht
            rcases hn2 t ht with h3 | h3
            · rcases hn1 t h3 with h4 | h4
              · exact Or.inl h4
              · exact Or.inr (List.mem_append_left _ h4)
            · exact Or.inr (List.mem_append_right _ h3)
      · rw [if_neg h2] at h
        have hnot : ¬ ((f.PkgPath = [] ∧ tagGet f.Tag cfg.TagName ≠ ['-']) ∧
            (f.Anonymous = true ∧ f.Typ.Kind = Kind.Struct)) := fun hcon => h2 hcon.2
        rw [if_neg hnot]
        exact getFieldInfoLoop_frame cfg rest (i + 1) _ c m c1 h
end

/-- C14. When the cache has an entry for a type, `getFieldInfo` returns the stored map and the
cache as it was, under every configuration. When it has none for a struct type,
`getFieldInfo` returns a map and a cache in which every entry of the old cache is still there
with the same map, the returned map is stored under the type, and every key is a key of the old
cache, the type itself, or a struct type reached through its eligible embedded fields. -/
theorem getFieldInfo_cache_frame :
    (∀ (cfg : Config) (finfos : Cache) (typ : GoType) (finfo : fieldInfo),
      finfos.lookup typ = some finfo → getFieldInfo cfg finfos typ = .ok (finfo, finfos)) ∧
    (∀ (cfg : Config) (finfos : Cache) (name : GoString) (fields : List StructField),
      finfos.lookup (GoType.struct name fields) = none →
      ∃ m c1, getFieldInfo cfg finfos (GoType.struct name fields) = .ok (m, c1) ∧
        (∀ t v, finfos.lookup t = some v → c1.lookup t = some v) ∧
        c1.lookup (GoType.struct name fields) = some m ∧
        (∀ t, t ∈ c1.keys →
          t ∈ finfos.keys ∨ t ∈ traversed cfg (GoType.struct name fields))) := by
  constructor
  · intro cfg finfos typ finfo h
    cases typ with
    | struct name fields => rw [getFieldInfo]; simp only [h]
    | ptr e => rw [getFieldInfo]; simp only [h]
    | basic n => rw [getFieldInfo]; simp only [h]
  · intro cfg finfos name fields _
    obtain ⟨⟨m, c1⟩, hm⟩ := getFieldInfo_struct_ok cfg (GoType.struct name fields) finfos rfl
    obtain ⟨hmono, hnew⟩ := getFieldInfo_frame cfg _ finfos m c1 hm
    exact ⟨m, c1, hm, hmono, getFieldInfo_caches cfg finfos name fields m c1 hm, hnew⟩

/-- C14, witness: the struct `User` is cached with an empty map and the configuration is the
default one: the stored map comes back. With the type `Shadow` not cached, the entry of `User`
stays. -/
theorem getFieldInfo_cache_frame_witness :
    getFieldInfo (defaultConfig asciiLower) (AList.insert exUser ∅ ∅) exUser =
        .ok (∅, AList.insert exUser ∅ ∅) ∧
    (∃ m c1, getFieldInfo (defaultConfig asciiLower) (AList.insert exUser ∅ ∅)
          (GoType.struct "Shadow".toList
            [exEmbed "Inner" (GoType.struct "Inner".toList [exField "ID" ""]),
              exField "A" "id", exField "B" "id"]) = .ok (m, c1) ∧
        (∀ t v, (AList.insert exUser ∅ ∅ : Cache).lookup t = some v → c1.lookup t = some v) ∧
        c1.lookup (GoType.struct "Shadow".toList
            [exEmbed "Inner" (GoType.struct "Inner".toList [exField "ID" ""]),
              exField "A" "id", exField "B" "id"]) = some m ∧
        (∀ t, t ∈ c1.keys →
          t ∈ (AList.insert exUser ∅ ∅ : Cache).keys ∨
            t ∈ traversed (defaultConfig asciiLower) (GoType.struct "Shadow".toList
              [exEmbed "Inner" (GoType.struct "Inner".toList [exField "ID" ""]),
                exField "A" "id", exField "B" "id"]))) :=
  ⟨getFieldInfo_cache_frame.1 (defaultConfig asciiLower) (AList.insert exUser ∅ ∅) exUser ∅
      (by rfl),
    getFieldInfo_cache_frame.2 (defaultConfig asciiLower) (AList.insert exUser ∅ ∅)
      "Shadow".toList
      [exEmbed "Inner" (GoType.struct "Inner".toList [exField "ID" ""]),
        exField "A" "id", exField "B" "id"] (by rfl)⟩

/-- C19. In a struct type where an eligible field at index `i` that is not an embedded struct
is stored under `k`, and an eligible embedded struct at index `j > i` has a field map that
sends `k` to the path `p`, and no field after `j` produces `k`, the field map sends `k` to `j`
followed by `p`: the embedded field overwrites the outer field declared before it. -/
theorem getFieldInfo_later_embedding_wins (cfg : Config) (finfos : Cache) (name : GoString)
    (fields : List StructField) (i j : Nat) (fi fe : StructField) (k : GoString)
    (p : List Nat) (hc : Coherent cfg finfos) (hij : i < j)
    (hi : fields[i]? = some fi) (hei : Eligible cfg fi ∧ ¬ Embedded fi)
    (hki : columnName cfg fi = k)
    (hj : fields[j]? = some fe) (hel : Eligible cfg fe) (hem : Embedded fe)
    (hp : (fieldMapOf cfg fe.Typ).lookup k = some p)
    (hlater : ∀ g ∈ fields.drop (j + 1), ¬ Produces cfg g k) :
    ∃ m c1, getFieldInfo cfg finfos (GoType.struct name fields) = .ok (m, c1) ∧
      m.lookup k = some (j :: p) ∧ m.lookup k ≠ some [i] := by
  obtain ⟨c1, h1, _⟩ := getFieldInfo_coherent cfg (GoType.struct name fields) finfos rfl hc
  have hl : (fieldMapOf cfg (GoType.struct name fields)).lookup k = some (j :: p) := by
    rw [fieldMapOf_eq_compute, computeFieldInfo]
    exact computeLoop_lookup_embedded_last cfg fields j fe k p hj hel hem hp hlater
  refine ⟨_, c1, h1, hl, ?_⟩
  rw [hl]
  intro h
  have hji : j = i := by
    have := Option.some.inj h
    exact (List.cons.inj this).1
  omega

/-- C19, witness: `struct { Name string; Inner }` with `Inner` the struct `User`; the key
`name` ends at the path `[1, 1]` of the embedded field. -/
theorem getFieldInfo_later_embedding_wins_witness :
    ∃ m c1, getFieldInfo (defaultConfig asciiLower) ∅
        (GoType.struct "OuterFirst".toList [exField "Name" "", exEmbed "Inner" exUser])
        = .ok (m, c1) ∧
      m.lookup "name".toList = some (1 :: [1]) ∧ m.lookup "name".toList ≠ some [0] :=
  getFieldInfo_later_embedding_wins (defaultConfig asciiLower) ∅ "OuterFirst".toList
    [exField "Name" "", exEmbed "Inner" exUser] 0 1 (exField "Name" "") (exEmbed "Inner" exUser)
    "name".toList [1] (coherent_empty _) (by decide) rfl (by decide) (by decide) rfl
    (by decide) (by decide) (by decide) (by decide)

/-! ## Claims C12 and C13: `ToSnakeCase` -/

theorem isUpperRune_iff (v : Char) :
    isUpperRune v = true ↔ 65 ≤ v.toNat ∧ v.toNat ≤ 90 := by
  unfold isUpperRune
  rw [decide_eq_true_iff]
  rfl

theorem toLower_of_not_upper (c : Char) (h : isUpperRune c = false) : c.toLower = c := by
  have h1 : ¬ (c.toNat ≥ 65 ∧ c.toNat ≤ 90) := by
    intro hcon
    have := (isUpperRune_iff c).2 hcon
    rw [h] at this
    cases this
  simp only [Char.toLower, h1, if_false]

theorem toLower_not_upper (c : Char) : isUpperRune c.toLower = false := by
  by_cases h : c.toNat ≥ 65 ∧ c.toNat ≤ 90
  · have hc : c.toLower = Char.ofNat (c.toNat + 32) := by
      simp only [Char.toLower, h, and_self, if_true]
    have hn := toNat_ofNat_lower c.toNat h.1 h.2
    cases hu : isUpperRune c.toLower with
    | false => rfl
    | true =>
      have := (isUpperRune_iff _).1 hu
      rw [hc, hn] at this
      omega
  · have hc : c.toLower = c := by
      simp only [Char.toLower, h, if_false]
    rw [hc]
    cases hu : isUpperRune c with
    | false => rfl
    | true => exact absurd ((isUpperRune_iff c).1 hu) h

theorem asciiLower_not_upper (s : GoString) : ∀ c ∈ asciiLower s, isUpperRune c = false := by
  intro c hc
  simp only [asciiLower, List.mem_map] at hc
  obtain ⟨d, _, hd⟩ := hc
  rw [← hd]
  exact toLower_not_upper d

theorem asciiLower_of_not_upper (s : GoString) (h : ∀ c ∈ s, isUpperRune c = false) :
    asciiLower s = s := by
  induction s with
  | nil => rfl
  | cons c rest ih =>
    simp only [asciiLower, List.map_cons] at ih ⊢
    rw [toLower_of_not_upper c (h c (List.mem_cons_self _ _)),
      ih (fun d hd => h d (List.mem_cons_of_mem _ hd))]

/-- Without uppercase letters the loop of `ToSnakeCase` copies its input. -/
theorem snakeLoop_of_not_upper :
    ∀ (rest : GoString) (i : Nat) (prevUpper : Bool) (buf : GoString),
      (∀ c ∈ rest, isUpperRune c = false) → snakeLoop rest i prevUpper buf = buf ++ rest := by
  intro rest
  induction rest with
  | nil => intro i p buf _; simp [snakeLoop]
  | cons v rest ih =>
    intro i p buf h
    have hv : isUpperRune v = false := h v (List.mem_cons_self _ _)
    rw [snakeLoop]
    simp only [hv, Bool.false_eq_true, false_and, and_false, if_false]
    rw [ih _ _ _ (fun d hd => h d (List.mem_cons_of_mem _ hd))]
    simp

/-- The buffer of `ToSnakeCase` holds runes of the input, of the buffer it started from, and
underscores. -/
theorem snakeLoop_mem :
    ∀ (rest : GoString) (i : Nat) (prevUpper : Bool) (buf : GoString) (c : Char),
      c ∈ snakeLoop rest i prevUpper buf → c ∈ buf ∨ c ∈ rest ∨ c = '_' := by
  intro rest
  induction rest with
  | nil => intro i p buf c h; exact Or.inl h
  | cons v rest ih =>
    intro i p buf c h
    rw [snakeLoop] at h
    rcases ih _ _ _ c h with h1 | h1 | h1
    · rw [List.mem_append] at h1
      rcases h1 with h2 | h2
      · split_ifs at h2 with hcond
        · rw [List.mem_append] at h2
          rcases h2 with h3 | h3
          · exact Or.inl h3
          · exact Or.inr (Or.inr (by simpa using h3))
        · exact Or.inl h2
      · have : c = v := by simpa using h2
        rw [this]
        exact Or.inr (Or.inl (List.mem_cons_self _ _))
    · exact Or.inr (Or.inl (List.mem_cons_of_mem _ h1))
    · exact Or.inr (Or.inr h1)

theorem asciiLower_append (a b : GoString) :
    asciiLower (a ++ b) = asciiLower a ++ asciiLower b := by
  simp [asciiLower]

/-- The lowercased buffer of `ToSnakeCase`, position by position. -/
theorem snakeLoop_eq_pieces :
    ∀ (rest pre : GoString) (i : Nat) (prevUpper : Bool) (buf : GoString),
      (i > 0 ↔ 0 < pre.length) →
      (0 < pre.length →
        prevUpper = isUpperRune ((pre ++ rest).getD (pre.length - 1) ' ')) →
      asciiLower (snakeLoop rest i prevUpper buf) =
        asciiLower buf ++ (List.range' pre.length rest.length).flatMap (snakeAt (pre ++ rest)) := by
  intro rest
  induction rest with
  | nil => intro pre i p buf _ _; simp [snakeLoop]
  | cons v rest ih =>
    intro pre i p buf hi hp
    have hassoc : pre ++ v :: rest = (pre ++ [v]) ++ rest := by simp
    have hget : (pre ++ v :: rest).getD pre.length ' ' = v := by
      rw [List.getD_append_right _ _ _ _ (le_refl _)]
      simp
    have hih := ih (pre ++ [v]) (i + v.utf8Size) (isUpperRune v)
      ((if i > 0 ∧ isUpperRune v = true ∧ p = false then buf ++ ['_'] else buf) ++ [v])
      (by
        constructor
        · intro _; simp
        · intro _
          have := v.utf8Size_pos
          omega)
      (by
        intro _
        rw [← hassoc]
        simp only [List.length_append, List.length_singleton, Nat.add_sub_cancel]
        rw [hget])
    rw [snakeLoop]
    rw [hih, ← hassoc, List.length_cons, List.range'_succ, List.flatMap_cons, snakeAt, hget]
    simp only [List.length_append, List.length_singleton]
    rw [asciiLower_append, ← List.append_assoc, ← List.append_assoc]
    congr 1
    have hsingle : asciiLower [v] = [v.toLower] := rfl
    rw [hsingle]
    congr 1
    by_cases hpre : 0 < pre.length
    · have hi1 : i > 0 := hi.2 hpre
      have hne : pre.length ≠ 0 := by omega
      have hpv := hp hpre
      by_cases hcond : isUpperRune v = true ∧ p = false
      · have h1 : i > 0 ∧ isUpperRune v = true ∧ p = false := ⟨hi1, hcond.1, hcond.2⟩
        have h2 : isUpperRune v = true ∧ pre.length ≠ 0 ∧
            isUpperRune ((pre ++ v :: rest).getD (pre.length - 1) ' ') = false :=
          ⟨hcond.1, hne, by rw [← hpv]; exact hcond.2⟩
        rw [if_pos h1, if_pos h2, asciiLower_append]
        rfl
      · have h1 : ¬ (i > 0 ∧ isUpperRune v = true ∧ p = false) := fun h => hcond ⟨h.2.1, h.2.2⟩
        have h2 : ¬ (isUpperRune v = true ∧ pre.length ≠ 0 ∧
            isUpperRune ((pre ++ v :: rest).getD (pre.length - 1) ' ') = false) := by
          intro h
          apply hcond
          refine ⟨h.1, ?_⟩
          rw [hpv]
          exact h.2.2
        rw [if_neg h1, if_neg h2]
        simp
    · have hi0 : ¬ i > 0 := fun h => hpre (hi.1 h)
      have hzero : pre.length = 0 := by omega
      have h1 : ¬ (i > 0 ∧ isUpperRune v = true ∧ p = false) := fun h => hi0 h.1
      have h2 : ¬ (isUpperRune v = true ∧ pre.length ≠ 0 ∧
          isUpperRune ((pre ++ v :: rest).getD (pre.length - 1) ' ') = false) :=
        fun h => h.2.1 hzero
      rw [if_neg h1, if_neg h2]
      simp

theorem isAlnumRune_ascii (c : Char) (h : isAlnumRune c) : c.toNat < 128 := by
  have hA : 'A'.toNat = 65 := rfl
  have hZ : 'Z'.toNat = 90 := rfl
  have ha : 'a'.toNat = 97 := rfl
  have hz : 'z'.toNat = 122 := rfl
  have h0 : '0'.toNat = 48 := rfl
  have h9 : '9'.toNat = 57 := rfl
  unfold isAlnumRune at h
  rw [hA, hZ, ha, hz, h0, h9] at h
  omega

theorem isSnakeRune_ascii (c : Char) (h : isSnakeRune c) :
    c.toNat < 128 ∧ isUpperRune c = false := by
  have ha : 'a'.toNat = 97 := rfl
  have hz : 'z'.toNat = 122 := rfl
  have h0 : '0'.toNat = 48 := rfl
  have h9 : '9'.toNat = 57 := rfl
  have hnot : c.toNat < 128 ∧ ¬ (65 ≤ c.toNat ∧ c.toNat ≤ 90) := by
    unfold isSnakeRune at h
    rw [ha, hz, h0, h9] at h
    rcases h with h | h | h
    · omega
    · omega
    · rw [h]
      decide
  refine ⟨hnot.1, ?_⟩
  cases hu : isUpperRune c with
  | false => rfl
  | true => exact absurd ((isUpperRune_iff c).1 hu) hnot.2

/-- On ASCII input the buffer of `ToSnakeCase` is ASCII, and lowercasing it gives the result
written in the words of the specification. -/
theorem toSnakeCase_ascii (ToLower : GoString → GoString)
    (hascii : ∀ s : GoString, (∀ c ∈ s, c.toNat < 128) → ToLower s = asciiLower s)
    (s : GoString) (hs : ∀ c ∈ s, c.toNat < 128) : ToSnakeCase ToLower s = snakeSpec s := by
  have hbuf : ∀ c ∈ snakeLoop s 0 false [], c.toNat < 128 := by
    intro c hc
    rcases snakeLoop_mem s 0 false [] c hc with h | h | h
    · cases h
    · exact hs c h
    · rw [h]
      decide
  rw [ToSnakeCase, hascii _ hbuf,
    snakeLoop_eq_pieces s [] 0 false [] (by simp) (by simp)]
  simp [snakeSpec, List.range_eq_range', asciiLower]

/-- C12. Let `strings.ToLower` fold the ASCII letters on ASCII text. Then
`ToSnakeCase("UserID") = "user_id"`, `ToSnakeCase("ID") = "id"`, and for every string of ASCII
letters and digits the result is `snakeSpec`: the input lowercased, with one `_` right before
each uppercase letter that is not at position 0 and whose preceding character is not an
uppercase letter, and nothing else added or removed. -/
theorem toSnakeCase_inserts_underscores (ToLower : GoString → GoString)
    (hascii : ∀ s : GoString, (∀ c ∈ s, c.toNat < 128) → ToLower s = asciiLower s) :
    ToSnakeCase ToLower "UserID".toList = "user_id".toList ∧
    ToSnakeCase ToLower "ID".toList = "id".toList ∧
    ∀ s : GoString, (∀ c ∈ s, isAlnumRune c) → ToSnakeCase ToLower s = snakeSpec s := by
  refine ⟨?_, ?_, ?_⟩
  · rw [toSnakeCase_ascii ToLower hascii _ (by decide)]
    decide
  · rw [toSnakeCase_ascii ToLower hascii _ (by decide)]
    decide
  · intro s hs
    exact toSnakeCase_ascii ToLower hascii s (fun c hc => isAlnumRune_ascii c (hs c hc))

/-- C12, witness: the ASCII folding itself as `strings.ToLower`; `HTTPServer2` is a string of
letters and digits. -/
theorem toSnakeCase_inserts_underscores_witness :
    (ToSnakeCase asciiLower "UserID".toList = "user_id".toList ∧
      ToSnakeCase asciiLower "ID".toList = "id".toList ∧
      ∀ s : GoString, (∀ c ∈ s, isAlnumRune c) → ToSnakeCase asciiLower s = snakeSpec s) ∧
    (∀ c ∈ "HTTPServer2".toList, isAlnumRune c) ∧
    ToSnakeCase asciiLower "HTTPServer2".toList = "httpserver2".toList :=
  ⟨toSnakeCase_inserts_underscores asciiLower (fun _ _ => rfl), by decide, by decide⟩

/-- C13. Let `strings.ToLower` leave lowercased text as it is, return no letter from `A` to
`Z`, and fold the ASCII letters on ASCII text. Then `ToSnakeCase` is idempotent on every string,
and it returns unchanged every string of lowercase ASCII letters, digits and underscores, such
as `user_id`. -/
theorem toSnakeCase_idempotent (ToLower : GoString → GoString)
    (hidem : ∀ s, ToLower (ToLower s) = ToLower s)
    (hlow : ∀ s, ∀ c ∈ ToLower s, isUpperRune c = false)
    (hascii : ∀ s : GoString, (∀ c ∈ s, c.toNat < 128) → ToLower s = asciiLower s) :
    (∀ s, ToSnakeCase ToLower (ToSnakeCase ToLower s) = ToSnakeCase ToLower s) ∧
    (∀ s : GoString, (∀ c ∈ s, isSnakeRune c) → ToSnakeCase ToLower s = s) ∧
    ToSnakeCase ToLower "user_id".toList = "user_id".toList := by
  have hsnake : ∀ s : GoString, (∀ c ∈ s, isSnakeRune c) → ToSnakeCase ToLower s = s := by
    intro s hs
    have hup : ∀ c ∈ s, isUpperRune c = false := fun c hc => (isSnakeRune_ascii c (hs c hc)).2
    rw [ToSnakeCase, snakeLoop_of_not_upper s 0 false [] hup, List.nil_append,
      hascii s (fun c hc => (isSnakeRune_ascii c (hs c hc)).1), asciiLower_of_not_upper s hup]
  refine ⟨?_, hsnake, hsnake _ (by decide)⟩
  intro s
  rw [ToSnakeCase, ToSnakeCase, snakeLoop_of_not_upper _ 0 false [] (hlow _), List.nil_append,
    hidem]

/-- C13, witness: the ASCII folding as `strings.ToLower`; `ToSnakeCase("UserID")` is a fixed
point. -/
theorem toSnakeCase_idempotent_witness :
    ((∀ s, ToSnakeCase asciiLower (ToSnakeCase asciiLower s) = ToSnakeCase asciiLower s) ∧
      (∀ s : GoString, (∀ c ∈ s, isSnakeRune c) → ToSnakeCase asciiLower s = s) ∧
      ToSnakeCase asciiLower "user_id".toList = "user_id".toList) ∧
    ToSnakeCase asciiLower (ToSnakeCase asciiLower "UserID".toList) = "user_id".toList :=
  ⟨toSnakeCase_idempotent asciiLower asciiLower_idempotent asciiLower_not_upper
    (fun _ _ => rfl), by decide⟩

/-! ## Claims C15 and C16: names and case -/

/-- C15, as amended. Let `NameMaper` return only names that lowercasing leaves as they are
(the default lowercasing and `ToSnakeCase` do), and let the caches be coherent with the
configuration. Then every name that `cols` lists for a struct type, when it is the name of a
cursor column, is bound by `Scan` to the field whose path the field map stores under that name,
not to a discard buffer. -/
theorem scan_resolves_listed_columns (ToLower : GoString → GoString) (cfg : Config)
    (hfix : ∀ x, ToLower (cfg.NameMaper x) = cfg.NameMaper x)
    (finfos finfos2 : Cache) (name : GoString) (fields : List StructField)
    (n : GoString) (names : List GoString) (c1 : Cache) (dest : Value) (rows : Rows)
    (hc : Coherent cfg finfos) (hc2 : Coherent cfg finfos2)
    (hcols : cols cfg finfos (GoType.struct name fields) = .ok (names, c1))
    (hn : n ∈ names)
    (hdest : dest.typ = GoType.ptr (GoType.struct name fields))
    (hnil : dest.isNil = false) :
    ∃ m c2 values p,
      getFieldInfo cfg finfos2 (GoType.struct name fields) = .ok (m, c2) ∧
      m.lookup n = some p ∧
      (Scan ToLower cfg finfos2 dest rows).trace =
        [Event.getFieldInfo (GoType.struct name fields), Event.fieldDescriptions,
          Event.logPrintln rows.fields, Event.scan values] ∧
      values.length = rows.fields.length ∧
      (∀ (i : Nat) (col : FieldDescription), rows.fields[i]? = some col →
        col.Name = n → values[i]? = some (Target.field p)) := by
  obtain ⟨d1, hd1, _⟩ := getFieldInfo_coherent cfg (GoType.struct name fields) finfos rfl hc
  obtain ⟨c2, hm, _⟩ := getFieldInfo_coherent cfg (GoType.struct name fields) finfos2 rfl hc2
  have hnames : names = sortStrings (fieldMapOf cfg (GoType.struct name fields)).keys := by
    rw [cols, hd1] at hcols
    simp only [Result.ok.injEq, Prod.mk.injEq] at hcols
    exact hcols.1.symm
  have hkey : n ∈ (fieldMapOf cfg (GoType.struct name fields)).keys := by
    rw [hnames, mem_sortStrings] at hn
    exact hn
  obtain ⟨x, hx⟩ := fieldMapOf_keys_range _ _ _ hkey
  have hlow : ToLower n = n := by
    rw [hx]
    exact hfix x
  have hsome := AList.lookup_isSome.2 (AList.mem_keys.2 hkey)
  rw [Option.isSome_iff_exists] at hsome
  obtain ⟨p, hp⟩ := hsome
  have hrun := doScan_run ToLower cfg finfos2 dest rows [] name fields _ c2 hdest hm
    (Or.inl hnil)
  refine ⟨_, c2,
    rows.fields.map (fun col => targetOf (fieldMapOf cfg (GoType.struct name fields))
      (lookupName ToLower [] col.Name)),
    p, hm, hp, ?_, ?_, ?_⟩
  · rw [Scan, hrun]
  · simp
  · intro i col hcol hname
    have hlk : lookupName ToLower [] col.Name = n := by
      rw [hname, lookupName_empty, hlow]
    rw [List.getElem?_map, hcol, Option.map_some', hlk, targetOf, hp]

/-- C15, witness: `NameMaper = ToSnakeCase` and the type `struct { UserID int; Name string }`;
the listed name `user_id` is bound to the field `UserID`. -/
theorem scan_resolves_listed_columns_witness :
    (∃ m c2 values p,
      getFieldInfo (snakeConfig asciiLower) ∅
        (GoType.struct "Account".toList [exField "UserID" "", exField "Name" ""])
        = .ok (m, c2) ∧
      m.lookup "user_id".toList = some p ∧
      (Scan asciiLower (snakeConfig asciiLower) ∅ ⟨GoType.ptr exAccount, false⟩
        exAccountRows).trace =
        [Event.getFieldInfo
            (GoType.struct "Account".toList [exField "UserID" "", exField "Name" ""]),
          Event.fieldDescriptions, Event.logPrintln exAccountRows.fields, Event.scan values] ∧
      values.length = exAccountRows.fields.length ∧
      (∀ (i : Nat) (col : FieldDescription), exAccountRows.fields[i]? = some col →
        col.Name = "user_id".toList → values[i]? = some (Target.field p))) ∧
    (Scan asciiLower (snakeConfig asciiLower) ∅ ⟨GoType.ptr exAccount, false⟩
      exAccountRows).trace =
      [Event.getFieldInfo exAccount, Event.fieldDescriptions,
        Event.logPrintln exAccountRows.fields,
        Event.scan [Target.field [0], Target.field [1]]] :=
  ⟨scan_resolves_listed_columns asciiLower (snakeConfig asciiLower)
      (fun x => asciiLower_idempotent _) ∅ ∅ "Account".toList
      [exField "UserID" "", exField "Name" ""] "user_id".toList
      ["name".toList, "user_id".toList]
      (AList.insert exAccount (fieldMapOf (snakeConfig asciiLower) exAccount) ∅)
      ⟨GoType.ptr exAccount, false⟩ exAccountRows (coherent_empty _) (coherent_empty _)
      rfl (by decide) rfl rfl,
    by decide⟩

/-- C15, counterexample: `NameMaper` returns its argument, so the field map of the struct
`User` has the keys `ID` and `Name`, and `cols` lists them. `Scan` lowercases the column name
`ID` to `id`, which is no key, and binds the column to a discard buffer. -/
theorem scan_identity_mapper_counterexample :
    (∃ c1, cols identityConfig ∅ exUser = .ok (["ID".toList, "Name".toList], c1)) ∧
    (fieldMapOf identityConfig exUser).lookup "ID".toList = some [0] ∧
    (Scan asciiLower identityConfig ∅ ⟨GoType.ptr exUser, false⟩ exUpperRows).trace =
      [Event.getFieldInfo exUser, Event.fieldDescriptions, Event.logPrintln exUpperRows.fields,
        Event.scan [Target.rawBytes]] :=
  ⟨⟨_, rfl⟩, by decide, by decide⟩

/-- C16, as amended. `doScan` removes the alias first, as it is written, and lowercases the
rest. For a destination that is a non-nil pointer to a struct (or a nil one while no column
resolves to a key) and every alias, two columns whose names are equal when lowercased after the
removal of `alias + "_"` are bound to the same target: the same field for both or a discard
buffer for both. With the empty alias this holds for every two column names that are equal
when lowercased. -/
theorem doScan_same_target_when_lowercased_equal (ToLower : GoString → GoString)
    (cfg : Config) (finfos : Cache) (dest : Value) (rows : Rows) (als : GoString)
    (name : GoString) (fields : List StructField)
    (hdest : dest.typ = GoType.ptr (GoType.struct name fields))
    (hnil : dest.isNil = false ∨
      ∀ m c1, getFieldInfo cfg finfos (GoType.struct name fields) = .ok (m, c1) →
        ∀ col ∈ rows.fields, m.lookup (lookupName ToLower als col.Name) = none) :
    ∃ m c1 values,
      getFieldInfo cfg finfos (GoType.struct name fields) = .ok (m, c1) ∧
      (doScan ToLower cfg finfos dest rows als).trace =
        [Event.getFieldInfo (GoType.struct name fields), Event.fieldDescriptions,
          Event.logPrintln rows.fields, Event.scan values] ∧
      (∀ (i j : Nat) (ci cj : FieldDescription),
        rows.fields[i]? = some ci → rows.fields[j]? = some cj →
        ToLower (if als.length > 0 then replaceOnce (als ++ "_".toList) [] ci.Name
            else ci.Name) =
          ToLower (if als.length > 0 then replaceOnce (als ++ "_".toList) [] cj.Name
            else cj.Name) →
        values[i]? = values[j]? ∧
          (values[i]? = some Target.rawBytes ∨ ∃ p, values[i]? = some (Target.field p))) ∧
      (als = [] → ∀ (i j : Nat) (ci cj : FieldDescription),
        rows.fields[i]? = some ci → rows.fields[j]? = some cj →
        ToLower ci.Name = ToLower cj.Name → values[i]? = values[j]?) := by
  obtain ⟨⟨m, c1⟩, hm⟩ := getFieldInfo_struct_ok cfg (GoType.struct name fields) finfos rfl
  have hnil1 : dest.isNil = false ∨
      ∀ col ∈ rows.fields, m.lookup (lookupName ToLower als col.Name) = none := by
    rcases hnil with h | h
    · exact Or.inl h
    · exact Or.inr (h m c1 hm)
  have hrun := doScan_run ToLower cfg finfos dest rows als name fields m c1 hdest hm hnil1
  have hsame : ∀ (i j : Nat) (ci cj : FieldDescription),
      rows.fields[i]? = some ci → rows.fields[j]? = some cj →
      lookupName ToLower als ci.Name = lookupName ToLower als cj.Name →
      (rows.fields.map (fun col => targetOf m (lookupName ToLower als col.Name)))[i]? =
        (rows.fields.map (fun col => targetOf m (lookupName ToLower als col.Name)))[j]? := by
    intro i j ci cj hi hj heq
    rw [List.getElem?_map, List.getElem?_map, hi, hj, Option.map_some', Option.map_some', heq]
  refine ⟨m, c1, rows.fields.map (fun col => targetOf m (lookupName ToLower als col.Name)),
    hm, ?_, ?_, ?_⟩
  · rw [hrun]
  · intro i j ci cj hi hj heq
    refine ⟨hsame i j ci cj hi hj heq, ?_⟩
    rw [List.getElem?_map, hi, Option.map_some', targetOf]
    cases m.lookup (lookupName ToLower als ci.Name) with
    | none => exact Or.inl rfl
    | some p => exact Or.inr ⟨p, rfl⟩
  · intro hals i j ci cj hi hj heq
    apply hsame i j ci cj hi hj
    rw [hals, lookupName_empty, lookupName_empty, heq]

/-- C16, witness: a non-nil pointer to the struct `User`, no alias, and the columns `id` and
`ID`. -/
theorem doScan_same_target_when_lowercased_equal_witness :
    (∃ m c1 values,
      getFieldInfo (defaultConfig asciiLower) ∅
        (GoType.struct "User".toList [exField "ID" "", exField "Name" ""]) = .ok (m, c1) ∧
      (doScan asciiLower (defaultConfig asciiLower) ∅ ⟨GoType.ptr exUser, false⟩ exTwiceRows
        []).trace =
        [Event.getFieldInfo (GoType.struct "User".toList [exField "ID" "", exField "Name" ""]),
          Event.fieldDescriptions, Event.logPrintln exTwiceRows.fields, Event.scan values] ∧
      (∀ (i j : Nat) (ci cj : FieldDescription),
        exTwiceRows.fields[i]? = some ci → exTwiceRows.fields[j]? = some cj →
        asciiLower (if ([] : GoString).length > 0
            then replaceOnce ([] ++ "_".toList) [] ci.Name else ci.Name) =
          asciiLower (if ([] : GoString).length > 0
            then replaceOnce ([] ++ "_".toList) [] cj.Name else cj.Name) →
        values[i]? = values[j]? ∧
          (values[i]? = some Target.rawBytes ∨ ∃ p, values[i]? = some (Target.field p))) ∧
      (([] : GoString) = [] → ∀ (i j : Nat) (ci cj : FieldDescription),
        exTwiceRows.fields[i]? = some ci → exTwiceRows.fields[j]? = some cj →
        asciiLower ci.Name = asciiLower cj.Name → values[i]? = values[j]?)) ∧
    (doScan asciiLower (defaultConfig asciiLower) ∅ ⟨GoType.ptr exUser, false⟩ exTwiceRows
      []).trace =
      [Event.getFieldInfo exUser, Event.fieldDescriptions, Event.logPrintln exTwiceRows.fields,
        Event.scan [Target.field [0], Target.field [0]]] :=
  ⟨doScan_same_target_when_lowercased_equal asciiLower (defaultConfig asciiLower) ∅
      ⟨GoType.ptr exUser, false⟩ exTwiceRows [] "User".toList
      [exField "ID" "", exField "Name" ""] rfl (Or.inl rfl),
    by decide⟩

/-- C16, counterexample: with the alias `u`, the column names `u_id` and `U_id` are equal when
lowercased, but `doScan` removes `u_` from the first only: `u_id` is bound to the field `ID` and
`U_id`, looked up as `u_id`, to a discard buffer. -/
theorem doScan_alias_case_counterexample :
    asciiLower "u_id".toList = asciiLower "U_id".toList ∧
    lookupName asciiLower "u".toList "u_id".toList = "id".toList ∧
    lookupName asciiLower "u".toList "U_id".toList = "u_id".toList ∧
    (doScan asciiLower (defaultConfig asciiLower) ∅ ⟨GoType.ptr exUser, false⟩ exCaseRows
      "u".toList).trace =
      [Event.getFieldInfo exUser, Event.fieldDescriptions, Event.logPrintln exCaseRows.fields,
        Event.scan [Target.field [0], Target.rawBytes]] := by
  decide

/-! ## Claim C11: the order of the columns -/

theorem storeTarget_comm {ν : Type} (s : Store ν) (x y : Target × ν)
    (h : x.1 = y.1 → x.1 ≠ Target.rawBytes → x = y) :
    storeTarget (storeTarget s x) y = storeTarget (storeTarget s y) x := by
  obtain ⟨tx, vx⟩ := x
  obtain ⟨ty, vy⟩ := y
  cases tx with
  | rawBytes => simp [storeTarget]
  | field p =>
    cases ty with
    | rawBytes => simp [storeTarget]
    | field q =>
      by_cases hpq : p = q
      · subst hpq
        have := h rfl (by simp)
        rw [this]
      · funext r
        simp only [storeTarget]
        by_cases h1 : r = q
        · have h2 : r ≠ p := fun h3 => hpq (h3.symm.trans h1)
          simp [h1, h2, Ne.symm hpq]
        · simp [h1]

/-- Elements with the same field target are the same element when the field targets of the
list are pairwise distinct. -/
theorem eq_of_same_field {ν : Type} (l : List (Target × ν))
    (hnd : ((l.map Prod.fst).filter (fun t => decide (t ≠ Target.rawBytes))).Nodup)
    (x y : Target × ν) (hx : x ∈ l) (hy : y ∈ l) (h : x.1 = y.1)
    (hf : x.1 ≠ Target.rawBytes) : x = y := by
  rw [List.filter_map] at hnd
  have hx1 : x ∈ l.filter ((fun t => decide (t ≠ Target.rawBytes)) ∘ Prod.fst) := by
    rw [List.mem_filter]
    exact ⟨hx, by simpa using hf⟩
  have hy1 : y ∈ l.filter ((fun t => decide (t ≠ Target.rawBytes)) ∘ Prod.fst) := by
    rw [List.mem_filter]
    exact ⟨hy, by simpa [← h] using hf⟩
  exact List.inj_on_of_nodup_map hnd hx1 hy1 h

/-- What `scanInto` returns when the targets can all be bound. -/
theorem scanInto_eq {ν : Type} (ToLower : GoString → GoString) (cfg : Config)
    (finfos : Cache) (dest : Value) (name : GoString) (fields : List StructField)
    (m : fieldInfo) (c1 : Cache) (row : List (FieldDescription × ν)) (s : Store ν)
    (hdest : dest.typ = GoType.ptr (GoType.struct name fields))
    (hm : getFieldInfo cfg finfos (GoType.struct name fields) = .ok (m, c1))
    (hnil : dest.isNil = false) :
    scanInto ToLower cfg finfos dest row s =
      some ((row.map (fun cv => (targetOf m (ToLower cv.1.Name), cv.2))).foldl storeTarget s) := by
  have hrun := doScan_run ToLower cfg finfos dest
    { fields := row.map Prod.fst, Scan := fun _ => none } [] name fields m c1 hdest hm
    (Or.inl hnil)
  rw [scanInto, Scan, hrun]
  simp only [List.getLast?_cons_cons, List.getLast?_singleton, storeRow, lookupName_empty,
    List.map_map]
  rw [List.zip_map']
  rfl

/-- C11, as amended. For every struct type, every non-nil pointer to it and every row of
columns with their values in which no two columns are bound to the same destination field,
`Scan` leaves the same value in every field whatever the order of the columns: the scan
primitive stores value `i` into target `i`, and a permutation of the columns together with
their values gives the same destination. -/
theorem scan_store_independent_of_column_order {ν : Type} (ToLower : GoString → GoString)
    (cfg : Config) (finfos : Cache) (dest : Value) (name : GoString)
    (fields : List StructField) (row1 row2 : List (FieldDescription × ν)) (s : Store ν)
    (hdest : dest.typ = GoType.ptr (GoType.struct name fields))
    (hnil : dest.isNil = false) (hperm : row1.Perm row2)
    (hdistinct : ∀ m c1, getFieldInfo cfg finfos (GoType.struct name fields) = .ok (m, c1) →
      ((row1.map (fun cv => targetOf m (ToLower cv.1.Name))).filter
        (fun t => decide (t ≠ Target.rawBytes))).Nodup) :
    ∃ s1 s2, scanInto ToLower cfg finfos dest row1 s = some s1 ∧
      scanInto ToLower cfg finfos dest row2 s = some s2 ∧ ∀ path, s1 path = s2 path := by
  obtain ⟨⟨m, c1⟩, hm⟩ := getFieldInfo_struct_ok cfg (GoType.struct name fields) finfos rfl
  refine ⟨_, _, scanInto_eq ToLower cfg finfos dest name fields m c1 row1 s hdest hm hnil,
    scanInto_eq ToLower cfg finfos dest name fields m c1 row2 s hdest hm hnil, ?_⟩
  have hnd : (((row1.map (fun cv => (targetOf m (ToLower cv.1.Name), cv.2))).map
      Prod.fst).filter (fun t => decide (t ≠ Target.rawBytes))).Nodup := by
    have := hdistinct m c1 hm
    rw [List.map_map]
    exact this
  have heq := List.Perm.foldl_eq'
    (hperm.map (fun cv : FieldDescription × ν => (targetOf m (ToLower cv.1.Name), cv.2)))
    (fun x hx y hy z => storeTarget_comm z x y
      (fun h hf => eq_of_same_field _ hnd x y hx hy h hf)) s
  intro path
  rw [heq]

/-- C11, witness: the struct `User` with the columns `id` and `name` in both orders. -/
theorem scan_store_independent_of_column_order_witness :
    ∃ s1 s2,
      scanInto asciiLower (defaultConfig asciiLower) ∅ ⟨GoType.ptr exUser, false⟩
        [(⟨"id".toList⟩, 7), (⟨"name".toList⟩, 8)] (fun _ => (none : Option Nat)) = some s1 ∧
      scanInto asciiLower (defaultConfig asciiLower) ∅ ⟨GoType.ptr exUser, false⟩
        [(⟨"name".toList⟩, 8), (⟨"id".toList⟩, 7)] (fun _ => (none : Option Nat)) = some s2 ∧
      ∀ path, s1 path = s2 path :=
  scan_store_independent_of_column_order asciiLower (defaultConfig asciiLower) ∅
    ⟨GoType.ptr exUser, false⟩ "User".toList [exField "ID" "", exField "Name" ""]
    [(⟨"id".toList⟩, 7), (⟨"name".toList⟩, 8)] [(⟨"name".toList⟩, 8), (⟨"id".toList⟩, 7)]
    (fun _ => none) rfl rfl (List.Perm.swap _ _ _)
    (fun m c1 hm => by
      have h : getFieldInfo (defaultConfig asciiLower) ∅
          (GoType.struct "User".toList [exField "ID" "", exField "Name" ""]) =
          .ok (fieldMapOf (defaultConfig asciiLower) exUser,
            AList.insert exUser (fieldMapOf (defaultConfig asciiLower) exUser) ∅) := rfl
      rw [h] at hm
      simp only [Result.ok.injEq, Prod.mk.injEq] at hm
      rw [← hm.1]
      decide)

/-- C11, counterexample: the struct `User` and the row with the column `id` holding 1 and the
column `ID` holding 2. Both columns are bound to the field `ID`; in this order the field ends
with 2, and with the two columns (and their values) swapped it ends with 1. -/
theorem scan_duplicate_column_counterexample :
    List.Perm [((⟨"id".toList⟩ : FieldDescription), 1), (⟨"ID".toList⟩, 2)]
      [((⟨"ID".toList⟩ : FieldDescription), 2), (⟨"id".toList⟩, 1)] ∧
    (scanInto asciiLower (defaultConfig asciiLower) ∅ ⟨GoType.ptr exUser, false⟩
      [(⟨"id".toList⟩, 1), (⟨"ID".toList⟩, 2)] (fun _ => (none : Option Nat))).map
        (fun s => s [0]) = some (some 2) ∧
    (scanInto asciiLower (defaultConfig asciiLower) ∅ ⟨GoType.ptr exUser, false⟩
      [(⟨"ID".toList⟩, 2), (⟨"id".toList⟩, 1)] (fun _ => (none : Option Nat))).map
        (fun s => s [0]) = some (some 1) :=
  ⟨List.Perm.swap _ _ _, by decide, by decide⟩

/-! ## Claim C18: the stored paths are valid -/

theorem validPathIn_plain (fs : List StructField) (i : Nat) (f : StructField)
    (hf : fs[i]? = some f) (hp : f.PkgPath = []) : validPathIn fs [i] = true := by
  simp [validPathIn, hf, hp]

theorem validPathIn_nil (fs : List StructField) : validPathIn fs [] = false := by
  simp [validPathIn]

theorem validPathIn_embedded (fs : List StructField) (i : Nat) (f : StructField)
    (p : List Nat) (hf : fs[i]? = some f) (hp : f.PkgPath = []) (ha : f.Anonymous = true)
    (hv : ValidPath f.Typ p = true) : validPathIn fs (i :: p) = true := by
  cases hT : f.Typ with
  | struct n gs =>
    rw [hT, ValidPath] at hv
    cases p with
    | nil => rw [validPathIn_nil] at hv; cases hv
    | cons j rest => simp [validPathIn, hf, hp, ha, hT, hv]
  | ptr e => rw [hT] at hv; simp [ValidPath] at hv
  | basic n => rw [hT] at hv; simp [ValidPath] at hv

theorem pathsValid_empty : PathsValid ∅ := by
  intro typ finfo k p h
  simp at h

theorem getElem?_append_cons (pre rest : List StructField) (f : StructField) :
    (pre ++ f :: rest)[pre.length]? = some f := by
  rw [List.getElem?_append_right (le_refl _)]
  simp

mutual
theorem getFieldInfo_valid (cfg : Config) :
    ∀ (typ : GoType) (c : Cache) (m : fieldInfo) (c1 : Cache), PathsValid c →
      getFieldInfo cfg c typ = .ok (m, c1) →
      PathsValid c1 ∧ ∀ k p, m.lookup k = some p → ValidPath typ p = true
  | .struct name fields, c, m, c1, hc, h => by
    rw [getFieldInfo] at h
    cases hl : c.lookup (GoType.struct name fields) with
    | some finfo =>
      simp only [hl, Result.ok.injEq, Prod.mk.injEq] at h
      rw [← h.1, ← h.2]
      exact ⟨hc, fun k p hp => hc _ _ k p hl hp⟩
    | none =>
      simp only [hl] at h
      cases hloop : getFieldInfoLoop cfg fields 0 ∅ c with
      | panic p => simp [hloop] at h
      | ok r =>
        obtain ⟨finfo, c2⟩ := r
        simp only [hloop, Result.ok.injEq, Prod.mk.injEq] at h
        obtain ⟨hc2, hv⟩ := getFieldInfoLoop_valid cfg fields [] 0 ∅ c finfo c2 rfl hc
          (fun k p hp => by simp at hp) hloop
        rw [List.nil_append] at hv
        rw [← h.1, ← h.2]
        refine ⟨?_, fun k p hp => by rw [ValidPath]; exact hv k p hp⟩
        intro t mt k p ht hp
        by_cases heq : t = GoType.struct name fields
        · subst heq
          rw [AList.lookup_insert] at ht
          rw [← Option.some.inj ht] at hp
          rw [ValidPath]
          exact hv k p hp
        · rw [AList.lookup_insert_ne heq] at ht
          exact hc2 t mt k p ht hp
  | .ptr e, c, m, c1, hc, h => by
    rw [getFieldInfo] at h
    cases hl : c.lookup (GoType.ptr e) with
    | some finfo =>
      simp only [hl, Result.ok.injEq, Prod.mk.injEq] at h
      rw [← h.1, ← h.2]
      exact ⟨hc, fun k p hp => hc _ _ k p hl hp⟩
    | none => simp [hl] at h
  | .basic n, c, m, c1, hc, h => by
    rw [getFieldInfo] at h
    cases hl : c.lookup (GoType.basic n) with
    | some finfo =>
      simp only [hl, Result.ok.injEq, Prod.mk.injEq] at h
      rw [← h.1, ← h.2]
      exact ⟨hc, fun k p hp => hc _ _ k p hl hp⟩
    | none => simp [hl] at h
theorem getFieldInfoLoop_valid (cfg : Config) :
    ∀ (rest pre : List StructField) (i : Nat) (acc : fieldInfo) (c : Cache) (m : fieldInfo)
      (c1 : Cache), i = pre.length → PathsValid c →
      (∀ k p, acc.lookup k = some p → validPathIn (pre ++ rest) p = true) →
      getFieldInfoLoop cfg rest i acc c = .ok (m, c1) →
      PathsValid c1 ∧ ∀ k p, m.lookup k = some p → validPathIn (pre ++ rest) p = true
  | [], pre, i, acc, c, m, c1, _, hc, hacc, h => by
    simp only [getFieldInfoLoop, Result.ok.injEq, Prod.mk.injEq] at h
    rw [← h.1, ← h.2]
    exact ⟨hc, hacc⟩
  | f :: rest, pre, i, acc, c, m, c1, hi, hc, hacc, h => by
    have hassoc : pre ++ f :: rest = (pre ++ [f]) ++ rest := by simp
    have hlen : i + 1 = (pre ++ [f]).length := by simp [hi]
    have hf : (pre ++ f :: rest)[i]? = some f := by
      rw [hi]
      exact getElem?_append_cons pre rest f
    rw [getFieldInfoLoop] at h
    simp only at h
    rw [hassoc]
    by_cases h1 : f.PkgPath ≠ [] ∨ tagGet f.Tag cfg.TagName = ['-']
    · rw [if_pos h1] at h
      exact getFieldInfoLoop_valid cfg rest (pre ++ [f]) (i + 1) acc c m c1 hlen hc
        (by rw [← hassoc]; exact hacc) h
    · rw [if_neg h1] at h
      have hpkg : f.PkgPath = [] := by
        by_contra hcon
        exact h1 (Or.inl hcon)
      by_cases h2 : f.Anonymous = true ∧ f.Typ.Kind = Kind.Struct
      · rw [if_pos h2] at h
        cases hsub : getFieldInfo cfg c f.Typ with
        | panic p => simp [hsub] at h
        | ok r =>
          obtain ⟨sub, c2⟩ := r
          simp only [hsub] at h
          obtain ⟨hc2, hvsub⟩ := getFieldInfo_valid cfg f.Typ c sub c2 hc hsub
          refine getFieldInfoLoop_valid cfg rest (pre ++ [f]) (i + 1) _ c2 m c1 hlen hc2 ?_ h
          intro k p hp
          rw [← hassoc]
          rw [mergeEmbedded_lookup] at hp
          cases hs : sub.lookup k with
          | none =>
            rw [hs] at hp
            exact hacc k p hp
          | some q =>
            rw [hs] at hp
            rw [← Option.some.inj hp]
            exact validPathIn_embedded _ i f q hf hpkg h2.1 (hvsub k q hs)
      · rw [if_neg h2] at h
        refine getFieldInfoLoop_valid cfg rest (pre ++ [f]) (i + 1) _ c m c1 hlen hc ?_ h
        intro k p hp
        rw [← hassoc]
        by_cases hk : k = cfg.NameMaper
            (if tagGet f.Tag cfg.TagName = [] then f.Name else tagGet f.Tag cfg.TagName)
        · rw [hk, AList.lookup_insert] at hp
          rw [← Option.some.inj hp]
          exact validPathIn_plain _ i f hf hpkg
        · rw [AList.lookup_insert_ne hk] at hp
          exact hacc k p hp
end

/-- Along a valid path the loop of `FieldByIndex` selects a field at every step, passes no
unexported field and follows no pointer. -/
theorem reflectLoop_of_valid :
    ∀ (p : List Nat) (fs : List StructField) (n : GoString) (first : Bool),
      validPathIn fs p = true →
      ∃ t, reflectFieldByIndexLoop p first
        { typ := GoType.struct n fs, readOnly := false, viaPointer := false } =
          some { typ := t, readOnly := false, viaPointer := false } := by
  intro p
  induction p with
  | nil => intro fs n first h; rw [validPathIn_nil] at h; cases h
  | cons i rest ih =>
    intro fs n first h
    cases rest with
    | nil =>
      cases hf : fs[i]? with
      | none => simp [validPathIn, hf] at h
      | some f =>
        simp only [validPathIn, hf, decide_eq_true_eq] at h
        refine ⟨f.Typ, ?_⟩
        cases first <;> simp [reflectFieldByIndexLoop, reflectField, hf, h]
    | cons j rest2 =>
      cases hf : fs[i]? with
      | none => simp [validPathIn, hf] at h
      | some f =>
        simp only [validPathIn, hf, Bool.and_eq_true, decide_eq_true_eq] at h
        obtain ⟨⟨hpkg, _⟩, hty⟩ := h
        cases hT : f.Typ with
        | struct m gs =>
          rw [hT] at hty
          obtain ⟨t, ht⟩ := ih gs m false hty
          refine ⟨t, ?_⟩
          rw [← ht]
          cases first <;> simp [reflectFieldByIndexLoop, reflectField, hf, hpkg, hT]
        | ptr e => rw [hT] at hty; cases hty
        | basic b => rw [hT] at hty; cases hty

theorem reflectFieldByIndex_of_valid (typ : GoType) (p : List Nat)
    (h : ValidPath typ p = true) :
    ∃ t, reflectFieldByIndex typ p =
      some { typ := t, readOnly := false, viaPointer := false } := by
  cases typ with
  | struct n fs =>
    rw [ValidPath] at h
    obtain ⟨t, ht⟩ := reflectLoop_of_valid p fs n true h
    refine ⟨t, ?_⟩
    cases p with
    | nil => rw [validPathIn_nil] at h; cases h
    | cons i rest =>
      cases rest with
      | nil =>
        rw [← ht]
        simp only [reflectFieldByIndex, reflectFieldByIndexLoop, if_true]
        cases reflectField ⟨GoType.struct n fs, false, false⟩ i <;> rfl
      | cons j rest2 =>
        rw [← ht]
        simp [reflectFieldByIndex, GoType.Kind]
  | ptr e => simp [ValidPath] at h
  | basic b => simp [ValidPath] at h

/-- C18. When every path stored in the cache is valid (as in the empty cache), every path `p`
of the field map that `getFieldInfo` returns for a struct type is not empty and valid for the
type: each index is a field position of the struct reached so far, every field before the
last is an exported anonymous field of struct kind, and the last field is exported. So
`FieldByIndex` from a non-nil destination of that type succeeds without following a pointer,
and the field it selects has no read-only flag, so `Addr().Interface()` succeeds. The cache
afterwards holds valid paths only. -/
theorem getFieldInfo_paths_valid (cfg : Config) (finfos : Cache) (name : GoString)
    (fields : List StructField) (hc : PathsValid finfos) :
    ∃ m c1, getFieldInfo cfg finfos (GoType.struct name fields) = .ok (m, c1) ∧
      PathsValid c1 ∧
      ∀ k p, m.lookup k = some p →
        p ≠ [] ∧ ValidPath (GoType.struct name fields) p = true ∧
        ∃ t, reflectFieldByIndex (GoType.struct name fields) p =
          some { typ := t, readOnly := false, viaPointer := false } := by
  obtain ⟨⟨m, c1⟩, hm⟩ := getFieldInfo_struct_ok cfg (GoType.struct name fields) finfos rfl
  obtain ⟨hc1, hv⟩ := getFieldInfo_valid cfg _ finfos m c1 hc hm
  refine ⟨m, c1, hm, hc1, fun k p hp => ⟨?_, hv k p hp, reflectFieldByIndex_of_valid _ p (hv k p hp)⟩⟩
  intro hnil
  have := hv k p hp
  rw [hnil, ValidPath, validPathIn_nil] at this
  cases this

/-- C18, witness: the type `struct { Name string; Inner }` from the empty cache; the key `id`
has the path `[1, 0]`, which `FieldByIndex` follows to a field of type `int`. -/
theorem getFieldInfo_paths_valid_witness :
    (∃ m c1, getFieldInfo (defaultConfig asciiLower) ∅
        (GoType.struct "OuterFirst".toList [exField "Name" "", exEmbed "Inner" exUser])
        = .ok (m, c1) ∧
      PathsValid c1 ∧
      ∀ k p, m.lookup k = some p →
        p ≠ [] ∧
        ValidPath (GoType.struct "OuterFirst".toList
          [exField "Name" "", exEmbed "Inner" exUser]) p = true ∧
        ∃ t, reflectFieldByIndex (GoType.struct "OuterFirst".toList
            [exField "Name" "", exEmbed "Inner" exUser]) p =
          some { typ := t, readOnly := false, viaPointer := false }) ∧
    (fieldMapOf (defaultConfig asciiLower) exOuterFirst).lookup "id".toList = some [1, 0] ∧
    reflectFieldByIndex exOuterFirst [1, 0] =
      some { typ := GoType.basic "int".toList, readOnly := false, viaPointer := false } :=
  ⟨getFieldInfo_paths_valid (defaultConfig asciiLower) ∅ "OuterFirst".toList
      [exField "Name" "", exEmbed "Inner" exUser] pathsValid_empty,
    by decide, by decide⟩

/-! ## Claim C20: the field map does not depend on enumeration order or on the cache -/

/-- The entry for `k` after merging a list of entries with distinct keys. -/
theorem mergeEmbedded_lookup_list (i : Nat) (l : List (Sigma (fun _ : GoString => List Nat)))
    (hl : l.NodupKeys) (m : fieldInfo) (k : GoString) :
    (mergeEmbedded i l m).lookup k =
      match l.dlookup k with
      | some p => some (i :: p)
      | none => m.lookup k := by
  cases h : l.dlookup k with
  | none => exact mergeEmbedded_lookup_none i k l m h
  | some p => exact mergeEmbedded_lookup_some i k p l m hl h

/-- Merging the entries of a map in another order, into a map with the same entries, gives a
map with the same entries. -/
theorem mergeEmbedded_lookup_perm (i : Nat) (sub sub1 acc acc1 : fieldInfo)
    (l : List (Sigma (fun _ : GoString => List Nat))) (hl : l.Perm sub.entries)
    (hsub : ∀ k, sub.lookup k = sub1.lookup k) (hacc : ∀ k, acc.lookup k = acc1.lookup k)
    (k : GoString) :
    (mergeEmbedded i l acc).lookup k = (mergeEmbedded i sub1.entries acc1).lookup k := by
  have hnd : l.NodupKeys := (List.perm_nodupKeys hl).2 sub.nodupKeys
  have hlk : l.dlookup k = sub1.lookup k := by
    rw [List.perm_dlookup k hnd sub.nodupKeys hl]
    exact hsub k
  rw [mergeEmbedded_lookup_list i l hnd, mergeEmbedded_lookup, hlk, hacc k]

theorem cacheEquiv_of_agrees (cfg : Config) (c : Cache) (h : CacheAgrees cfg c) :
    CacheEquiv cfg c := by
  intro typ finfo hl k
  rw [h typ finfo hl]

mutual
theorem getFieldInfoVia_equiv
    (enum : fieldInfo → List (Sigma (fun _ : GoString => List Nat)))
    (henum : ∀ m, (enum m).Perm m.entries) (cfg : Config) :
    ∀ (typ : GoType) (c : Cache), typ.Kind = Kind.Struct → CacheEquiv cfg c →
      ∃ m c1, getFieldInfoVia enum cfg c typ = .ok (m, c1) ∧
        (∀ k, m.lookup k = (computeFieldInfo cfg typ).lookup k) ∧ CacheEquiv cfg c1
  | .struct name fields, c, _, hc => by
    rw [getFieldInfoVia]
    cases hl : c.lookup (GoType.struct name fields) with
    | some finfo => exact ⟨finfo, c, rfl, hc _ _ hl, hc⟩
    | none =>
      obtain ⟨m, c1, hr, hm, hc1⟩ :=
        getFieldInfoLoopVia_equiv enum henum cfg fields 0 ∅ ∅ c hc (fun _ => rfl)
      simp only [hr]
      refine ⟨m, c1.insert (GoType.struct name fields) m, rfl, ?_, ?_⟩
      · intro k
        rw [computeFieldInfo]
        exact hm k
      · intro t mt ht k
        by_cases heq : t = GoType.struct name fields
        · subst heq
          rw [AList.lookup_insert] at ht
          rw [← Option.some.inj ht, computeFieldInfo]
          exact hm k
        · rw [AList.lookup_insert_ne heq] at ht
          exact hc1 t mt ht k
  | .ptr _, _, h, _ => by simp [GoType.Kind] at h
  | .basic _, _, h, _ => by simp [GoType.Kind] at h
theorem getFieldInfoLoopVia_equiv
    (enum : fieldInfo → List (Sigma (fun _ : GoString => List Nat)))
    (henum : ∀ m, (enum m).Perm m.entries) (cfg : Config) :
    ∀ (fs : List StructField) (i : Nat) (acc acc1 : fieldInfo) (c : Cache),
      CacheEquiv cfg c → (∀ k, acc.lookup k = acc1.lookup k) →
      ∃ m c1, getFieldInfoLoopVia enum cfg fs i acc c = .ok (m, c1) ∧
        (∀ k, m.lookup k = (computeLoop cfg fs i acc1).lookup k) ∧ CacheEquiv cfg c1
  | [], _, acc, acc1, c, hc, hacc => ⟨acc, c, rfl, hacc, hc⟩
  | f :: rest, i, acc, acc1, c, hc, hacc => by
    rw [getFieldInfoLoopVia, computeLoop]
    simp only
    by_cases h1 : f.PkgPath ≠ [] ∨ tagGet f.Tag cfg.TagName = ['-']
    · rw [if_pos h1, if_pos h1]
      exact getFieldInfoLoopVia_equiv enum henum cfg rest (i + 1) acc acc1 c hc hacc
    · rw [if_neg h1, if_neg h1]
      by_cases h2 : f.Anonymous = true ∧ f.Typ.Kind = Kind.Struct
      · rw [if_pos h2, if_pos h2]
        obtain ⟨sub, c2, hr, hsub, hc2⟩ :=
          getFieldInfoVia_equiv enum henum cfg f.Typ c h2.2 hc
        rw [hr]
        exact getFieldInfoLoopVia_equiv enum henum cfg rest (i + 1) _ _ c2 hc2
          (mergeEmbedded_lookup_perm i sub (computeFieldInfo cfg f.Typ) acc acc1 (enum sub)
            (henum sub) hsub hacc)
      · rw [if_neg h2, if_neg h2]
        refine getFieldInfoLoopVia_equiv enum henum cfg rest (i + 1) _ _ c hc ?_
        intro k
        by_cases hk : k = cfg.NameMaper
            (if tagGet f.Tag cfg.TagName = [] then f.Name else tagGet f.Tag cfg.TagName)
        · rw [hk, AList.lookup_insert, AList.lookup_insert]
        · rw [AList.lookup_insert_ne hk, AList.lookup_insert_ne hk]
          exact hacc k
end

mutual
theorem getFieldInfoVia_entries (cfg : Config) :
    ∀ (typ : GoType) (c : Cache),
      getFieldInfoVia AList.entries cfg c typ = getFieldInfo cfg c typ
  | .struct name fields, c => by
    rw [getFieldInfoVia, getFieldInfo, getFieldInfoLoopVia_entries cfg fields 0 ∅ c]
  | .ptr _, _ => by rw [getFieldInfoVia, getFieldInfo]
  | .basic _, _ => by rw [getFieldInfoVia, getFieldInfo]
theorem getFieldInfoLoopVia_entries (cfg : Config) :
    ∀ (fs : List StructField) (i : Nat) (acc : fieldInfo) (c : Cache),
      getFieldInfoLoopVia AList.entries cfg fs i acc c = getFieldInfoLoop cfg fs i acc c
  | [], _, _, _ => by rw [getFieldInfoLoopVia, getFieldInfoLoop]
  | f :: rest, i, acc, c => by
    rw [getFieldInfoLoopVia, getFieldInfoLoop]
    simp only
    rw [getFieldInfoVia_entries cfg f.Typ c, getFieldInfoLoopVia_entries cfg rest (i + 1) acc c]
    split_ifs
    · rfl
    · cases getFieldInfo cfg c f.Typ with
      | panic p => rfl
      | ok r => exact getFieldInfoLoopVia_entries cfg rest (i + 1) _ _
    · exact getFieldInfoLoopVia_entries cfg rest (i + 1) _ _
    · exact getFieldInfoLoopVia_entries cfg rest (i + 1) _ _
end

/-- Two maps with the same entry for every key have the same entries, up to order. -/
theorem entries_perm_of_lookup (m1 m2 : fieldInfo) (h : ∀ k, m1.lookup k = m2.lookup k) :
    m1.entries.Perm m2.entries := by
  apply List.lookup_ext m1.nodupKeys m2.nodupKeys
  intro x y
  have := h x
  simp only [AList.lookup] at this
  rw [this]

/-- C20, as amended. The field map of a struct type is a function of the type and the
configuration as long as every cached map was computed under that configuration (the cache is
coherent). Whatever the order in which the loop enumerates the entries of an embedded type's
map, and whether the maps of embedded types are computed or come from such a cache,
`getFieldInfo` succeeds and returns a map with the entries of the map computed from the empty
cache (the same keys with the same paths); so two computations from the empty cache, with any
two enumeration orders, return equal maps. With the order of the model, the returned map is
that map itself. -/
theorem getFieldInfo_deterministic (cfg : Config) (name : GoString)
    (fields : List StructField) :
    (∀ (enum : fieldInfo → List (Sigma (fun _ : GoString => List Nat))),
      (∀ m, (enum m).Perm m.entries) → ∀ c, Coherent cfg c →
      ∃ m c1, getFieldInfoVia enum cfg c (GoType.struct name fields) = .ok (m, c1) ∧
        (∀ k, m.lookup k = (fieldMapOf cfg (GoType.struct name fields)).lookup k) ∧
        m.entries.Perm (fieldMapOf cfg (GoType.struct name fields)).entries) ∧
    (∀ (enum1 enum2 : fieldInfo → List (Sigma (fun _ : GoString => List Nat))),
      (∀ m, (enum1 m).Perm m.entries) → (∀ m, (enum2 m).Perm m.entries) →
      ∃ m1 c1 m2 c2,
        getFieldInfoVia enum1 cfg ∅ (GoType.struct name fields) = .ok (m1, c1) ∧
        getFieldInfoVia enum2 cfg ∅ (GoType.struct name fields) = .ok (m2, c2) ∧
        (∀ k, m1.lookup k = m2.lookup k) ∧ m1.entries.Perm m2.entries) ∧
    (∀ c, getFieldInfoVia AList.entries cfg c (GoType.struct name fields) =
      getFieldInfo cfg c (GoType.struct name fields)) ∧
    (∀ c, Coherent cfg c →
      ∃ c1, getFieldInfo cfg c (GoType.struct name fields) =
        .ok (fieldMapOf cfg (GoType.struct name fields), c1)) := by
  have hvia : ∀ (enum : fieldInfo → List (Sigma (fun _ : GoString => List Nat))),
      (∀ m, (enum m).Perm m.entries) → ∀ c, Coherent cfg c →
      ∃ m c1, getFieldInfoVia enum cfg c (GoType.struct name fields) = .ok (m, c1) ∧
        (∀ k, m.lookup k = (fieldMapOf cfg (GoType.struct name fields)).lookup k) := by
    intro enum henum c hc
    obtain ⟨m, c1, hr, hm, _⟩ := getFieldInfoVia_equiv enum henum cfg
      (GoType.struct name fields) c rfl
      (cacheEquiv_of_agrees cfg c ((coherent_iff_agrees cfg c).1 hc))
    refine ⟨m, c1, hr, ?_⟩
    intro k
    rw [fieldMapOf_eq_compute]
    exact hm k
  refine ⟨?_, ?_, fun c => getFieldInfoVia_entries cfg _ c, ?_⟩
  · intro enum henum c hc
    obtain ⟨m, c1, hr, hm⟩ := hvia enum henum c hc
    exact ⟨m, c1, hr, hm, entries_perm_of_lookup _ _ hm⟩
  · intro enum1 enum2 h1 h2
    obtain ⟨m1, c1, hr1, hm1⟩ := hvia enum1 h1 ∅ (coherent_empty cfg)
    obtain ⟨m2, c2, hr2, hm2⟩ := hvia enum2 h2 ∅ (coherent_empty cfg)
    have heq : ∀ k, m1.lookup k = m2.lookup k := fun k => (hm1 k).trans (hm2 k).symm
    exact ⟨m1, c1, m2, c2, hr1, hr2, heq, entries_perm_of_lookup _ _ heq⟩
  · intro c hc
    obtain ⟨c1, h1, _⟩ := getFieldInfo_coherent cfg (GoType.struct name fields) c rfl hc
    exact ⟨c1, h1⟩

/-- C20, witness: the type `struct { Name string; Inner }`; the entries of the embedded map are
merged in reverse order, once with that map computed and once with it taken from the cache. -/
theorem getFieldInfo_deterministic_witness :
    (∃ m c1, getFieldInfoVia reverseEntries (defaultConfig asciiLower) ∅
        (GoType.struct "OuterFirst".toList [exField "Name" "", exEmbed "Inner" exUser])
        = .ok (m, c1) ∧
      (∀ k, m.lookup k = (fieldMapOf (defaultConfig asciiLower)
        (GoType.struct "OuterFirst".toList
          [exField "Name" "", exEmbed "Inner" exUser])).lookup k) ∧
      m.entries.Perm (fieldMapOf (defaultConfig asciiLower)
        (GoType.struct "OuterFirst".toList
          [exField "Name" "", exEmbed "Inner" exUser])).entries) ∧
    (∃ c1, getFieldInfo (defaultConfig asciiLower)
        (AList.insert exUser (fieldMapOf (defaultConfig asciiLower) exUser) ∅)
        (GoType.struct "OuterFirst".toList [exField "Name" "", exEmbed "Inner" exUser]) =
      .ok (fieldMapOf (defaultConfig asciiLower)
        (GoType.struct "OuterFirst".toList [exField "Name" "", exEmbed "Inner" exUser]), c1)) :=
  ⟨(getFieldInfo_deterministic (defaultConfig asciiLower) "OuterFirst".toList
      [exField "Name" "", exEmbed "Inner" exUser]).1 reverseEntries
      (fun m => List.reverse_perm m.entries) ∅ (coherent_empty _),
    (getFieldInfo_deterministic (defaultConfig asciiLower) "OuterFirst".toList
      [exField "Name" "", exEmbed "Inner" exUser]).2.2.2
      (AList.insert exUser (fieldMapOf (defaultConfig asciiLower) exUser) ∅)
      (by
        intro typ finfo h
        by_cases ht : typ = exUser
        · subst ht
          rw [AList.lookup_insert] at h
          exact (Option.some.inj h).symm
        · rw [AList.lookup_insert_ne ht] at h
          simp at h)⟩

/-- C20, counterexample: the struct `User` is cached under the default configuration (keys
`id`, `name`), and `NameMaper` is then set to the identity. For
`struct { Name string; Inner }` with `Inner` the struct `User`, `getFieldInfo` takes the
embedded map from the cache and returns the keys `Name`, `id`, `name`; computed from the empty
cache under the same configuration the map has the keys `ID`, `Name`. -/
theorem cached_embedded_map_counterexample :
    resultMap (getFieldInfo (defaultConfig asciiLower) ∅ exUser) =
      fieldMapOf (defaultConfig asciiLower) exUser ∧
    (resultMap (getFieldInfo identityConfig exUserCache exOuterFirst)).lookup "id".toList =
      some [1, 0] ∧
    (resultMap (getFieldInfo identityConfig ∅ exOuterFirst)).lookup "id".toList = none ∧
    (resultMap (getFieldInfo identityConfig exUserCache exOuterFirst)).lookup "ID".toList =
      none ∧
    (resultMap (getFieldInfo identityConfig ∅ exOuterFirst)).lookup "ID".toList =
      some [1, 0] ∧
    sortStrings (resultMap (getFieldInfo identityConfig exUserCache exOuterFirst)).keys =
      ["Name".toList, "id".toList, "name".toList] ∧
    sortStrings (resultMap (getFieldInfo identityConfig ∅ exOuterFirst)).keys =
      ["ID".toList, "Name".toList] :=
  ⟨rfl, by decide, by decide, by decide, by decide, by decide, by decide⟩

end Pgxstruct
